import Mathlib

/-
  Shallow embedding of the go-httpx HTTP/1.x message framing engine.

  Bytes are modelled as `Nat` (values 0..255 in every reachable input) and byte
  streams as `List Nat`.  Go `int64` counters (remaining, limit, readTotal) are
  modelled as `Nat`: every constructor reachable through `NewBodyReader` keeps
  them non-negative, and a negative `maxSize` behaves exactly like `0` in the
  source because every use of the limit is guarded by `limit > 0`.  Overflow of
  `int64` is unreachable for these counters (they are bounded by the source
  length), so no wrap-around is modelled.

  An `io.Reader` source is modelled as the deterministic in-memory readers used
  by the repository's tests (`bytes.Reader`/`strings.Reader`): a read of up to
  `k` bytes returns `min k (length src)` bytes with no error while bytes
  remain, and reports `io.EOF` with zero bytes once the source is exhausted.
  The `bufio.Reader` wrappers used by `chunkedReader` and `CRLFFastReader` over
  such a deterministic source are modelled by reading directly from the byte
  list; this preserves the delivered byte sequence and the line splits.

  Strings are modelled as their byte lists; the ASCII fragments of
  `strings.TrimSpace`, `strings.EqualFold`, `unicode.ToUpper/ToLower` are used,
  which agree with Go on all ASCII inputs (all inputs appearing in the claims).
-/

/-- Error kinds of the engine: the sentinel errors of package httpx and netx,
    plus `io.EOF`, `bufio.ErrBufferFull`, `context.Canceled` and the
    "crlf: invalid max value" error of `ReadLine`. -/
inductive Err where
  | eof
  | bufferFull
  | bodyTooLarge
  | badChunk
  | lengthMismatch
  | unexpectedTrailer
  | lineTooLong
  | peekBeyondCap
  | canceled
  | invalidMax
  deriving DecidableEq

deriving instance DecidableEq for Except

/-- One read of up to `k` bytes from a deterministic in-memory source
    (`bytes.Reader` semantics): returns the bytes read, the error, and the
    rest of the source. -/
def srcRead (src : List Nat) (k : Nat) : List Nat × Option Err × List Nat :=
  if src.isEmpty then ([], some .eof, [])
  else (src.take k, none, src.drop k)

/-- Bytes of an ASCII string. -/
def strBytes (s : String) : List Nat := s.data.map Char.toNat

/-- ASCII whitespace, the ASCII fragment of `unicode.IsSpace`. -/
def isWS (c : Nat) : Bool := c = 32 || c = 9 || c = 10 || c = 13 || c = 11 || c = 12

/-- `strings.TrimSpace` on ASCII bytes. -/
def asciiTrimSpace (l : List Nat) : List Nat :=
  ((l.dropWhile isWS).reverse.dropWhile isWS).reverse

/-- `unicode.ToLower` on an ASCII byte. -/
def asciiToLower (c : Nat) : Nat := if 65 ≤ c ∧ c ≤ 90 then c + 32 else c

/-- `unicode.ToUpper` on an ASCII byte. -/
def asciiToUpper (c : Nat) : Nat := if 97 ≤ c ∧ c ≤ 122 then c - 32 else c

/-- `strings.EqualFold` on ASCII bytes. -/
def equalFoldAscii (a b : List Nat) : Bool :=
  a.map asciiToLower == b.map asciiToLower

/-- One dash-separated part of `CanonicalHeaderKey`: first byte upper-cased,
    the rest lower-cased; an empty part is left empty. -/
def canonPart : List Nat → List Nat
  | [] => []
  | c :: rest => asciiToUpper c :: rest.map asciiToLower

/-- `CanonicalHeaderKey` (header_test.go): split on '-' (byte 45), title-case
    each part, join with '-'. -/
def CanonicalHeaderKey (s : List Nat) : List Nat :=
  List.intercalate [45] ((s.splitOn 45).map canonPart)

/-- The header multimap `Header = map[string][]string`, modelled as an
    association list (Go's map iteration order is unspecified; the model fixes
    the insertion order, which does not affect `Get`/`Add` semantics). -/
def HeaderM : Type := List (List Nat × List (List Nat))

instance : DecidableEq HeaderM := by unfold HeaderM; infer_instance

/-- `Header.Get`: first value for the canonicalized key, `""` if none. -/
def hGet (h : HeaderM) (k : List Nat) : List Nat :=
  match h.find? (fun e => e.1 = CanonicalHeaderKey k) with
  | some (_, v :: _) => v
  | _ => []

/-- `Header.Add`: append a value under the canonicalized key. -/
def hAdd : HeaderM → List Nat → List Nat → HeaderM
  | [], k, v => [(CanonicalHeaderKey k, [v])]
  | e :: rest, k, v =>
      if e.1 = CanonicalHeaderKey k then (e.1, e.2 ++ [v]) :: rest
      else e :: hAdd rest k v

/-- Is `c` a valid digit of the given base (10 or 16, as used by
    `strconv.ParseInt`)? -/
def isDigitB (base c : Nat) : Bool :=
  if base ≤ 10 then 48 ≤ c ∧ c < 48 + base
  else (48 ≤ c ∧ c ≤ 57) || (97 ≤ c ∧ c ≤ 102) || (65 ≤ c ∧ c ≤ 70)

/-- Numeric value of a digit byte. -/
def digitValB (c : Nat) : Nat :=
  if 97 ≤ c then c - 87 else if 65 ≤ c then c - 55 else c - 48

/-- Fold a non-empty digit string into its value, `none` on a bad digit. -/
def parseDigits (base : Nat) (l : List Nat) : Option Nat :=
  if l.isEmpty then none
  else l.foldl (fun acc c =>
    match acc with
    | none => none
    | some v => if isDigitB base c then some (v * base + digitValB c) else none)
    (some 0)

/-- `strconv.ParseInt(s, base, 64)` for base 10 or 16: optional sign, at least
    one digit, `none` on syntax error or on 64-bit range overflow (Go reports
    ErrRange, which every caller here treats as failure). -/
def parseGoInt (base : Nat) (s : List Nat) : Option Int :=
  let signRest : Bool × List Nat :=
    if s.head? = some 43 then (false, s.tail)
    else if s.head? = some 45 then (true, s.tail)
    else (false, s)
  match parseDigits base signRest.2 with
  | none => none
  | some v =>
      if signRest.1 then (if v ≤ 2 ^ 63 then some (-(v : Int)) else none)
      else (if v ≤ 2 ^ 63 - 1 then some (v : Int) else none)

/-- Lowercase hex digit byte for a value < 16 (`strconv.FormatInt` base 16). -/
def hexDigit (v : Nat) : Nat := if v < 10 then 48 + v else 87 + v

/-- Hex digits, least significant first, with structural fuel (any fuel of at
    least `n` iterations is exhaustive since the argument is divided by 16). -/
def hexRevF : Nat → Nat → List Nat
  | 0, _ => []
  | fuel + 1, n => if n = 0 then [] else hexDigit (n % 16) :: hexRevF fuel (n / 16)

/-- Hex digits of `n`, least significant first. -/
def hexRev (n : Nat) : List Nat := hexRevF n n

/-- `strconv.FormatInt(n, 16)` for `n ≥ 0`: lowercase hex, no sign, "0" for 0. -/
def toHexBytes (n : Nat) : List Nat :=
  if n = 0 then [48] else (hexRev n).reverse

/-- `strconv.Itoa` / `fmt %d` for a non-negative int. -/
def decBytes (n : Nat) : List Nat := (Nat.toDigits 10 n).map Char.toNat

/-- Split a list into consecutive blocks of `k` elements (the read pattern of
    `io.Copy`'s 32 KiB buffer over an in-memory body). -/
def chunksOf (k : Nat) (l : List α) : List (List α) :=
  if h : l.isEmpty ∨ k = 0 then []
  else l.take k :: chunksOf k (l.drop k)
  termination_by l.length
  decreasing_by
    simp only [not_or, List.isEmpty_iff] at h
    have hl : 0 < l.length := by
      cases l with
      | nil => exact absurd rfl h.1
      | cons a t => simp
    simp only [List.length_drop]
    omega

-- -----------------------------------------------------------------------------
-- fixedReader (Content-Length)
-- -----------------------------------------------------------------------------

/-- State of `fixedReader`: cancellation flag of its context, the underlying
    source, remaining bytes `n`, the global cap `limit`, and `readTotal`. -/
structure fixedReader where
  ctxDone : Bool
  src : List Nat
  n : Nat
  limit : Nat
  readTotal : Nat
  deriving DecidableEq

/-- `fixedReader.Read` with a caller buffer of length `plen`: returns the bytes
    produced, the error, and the updated reader. -/
def fixedReader.Read (f : fixedReader) (plen : Nat) :
    List Nat × Option Err × fixedReader :=
  if f.ctxDone then ([], some .canceled, f)
  else if f.n = 0 then ([], some .eof, f)
  else
    let r := srcRead f.src (min plen f.n)
    let n' := f.n - r.1.length
    let rt' := f.readTotal + r.1.length
    let f' : fixedReader := ⟨f.ctxDone, r.2.2, n', f.limit, rt'⟩
    if 0 < f.limit ∧ f.limit < rt' then (r.1, some .bodyTooLarge, f')
    else if r.2.1 = some .eof ∧ 0 < n' then (r.1, some .lengthMismatch, f')
    else if n' = 0 then (r.1, some .eof, f')
    else (r.1, r.2.1, f')

/-- Drive `fixedReader.Read` with buffer size `b` until an error or EOF is
    reported, concatenating the produced bytes (the caller's drain loop). -/
def drainFixed : Nat → fixedReader → Nat → List Nat × Option Err × fixedReader
  | 0, f, _ => ([], none, f)
  | fuel + 1, f, b =>
      let s := f.Read b
      match s.2.1 with
      | some e => (s.1, some e, s.2.2)
      | none =>
          let r := drainFixed fuel s.2.2 b
          (s.1 ++ r.1, r.2.1, r.2.2)

-- -----------------------------------------------------------------------------
-- closeReader (no length: read-until-close)
-- -----------------------------------------------------------------------------

/-- State of `closeReader`: cancellation flag, source, optional cap `limit`
    (0 means no cap) and cumulative `readTotal`. -/
structure closeReader where
  ctxDone : Bool
  src : List Nat
  limit : Nat
  readTotal : Nat
  deriving DecidableEq

/-- `closeReader.Read` with a caller buffer of length `plen`. -/
def closeReader.Read (c : closeReader) (plen : Nat) :
    List Nat × Option Err × closeReader :=
  if c.ctxDone then ([], some .canceled, c)
  else if 0 < c.limit ∧ c.limit - c.readTotal = 0 then ([], some .eof, c)
  else
    let plen' := if 0 < c.limit then min plen (c.limit - c.readTotal) else plen
    let r := srcRead c.src plen'
    let rt' := c.readTotal + r.1.length
    let c' : closeReader := ⟨c.ctxDone, r.2.2, c.limit, rt'⟩
    if 0 < c.limit ∧ c.limit < rt' then (r.1, some .bodyTooLarge, c')
    else (r.1, r.2.1, c')

/-- Drain loop for `closeReader`. -/
def drainClose : Nat → closeReader → Nat → List Nat × Option Err × closeReader
  | 0, c, _ => ([], none, c)
  | fuel + 1, c, b =>
      let s := c.Read b
      match s.2.1 with
      | some e => (s.1, some e, s.2.2)
      | none =>
          let r := drainClose fuel s.2.2 b
          (s.1 ++ r.1, r.2.1, r.2.2)

-- -----------------------------------------------------------------------------
-- chunkedReader (Transfer-Encoding: chunked)
-- -----------------------------------------------------------------------------

/-- The chunk decoder's state machine states. -/
inductive chunkState where
  | stateChunkHeader
  | stateChunkData
  | stateChunkCRLF
  | stateTrailer
  | stateDone
  deriving DecidableEq

/-- `bufio.Reader.ReadString('\n')` over the modelled source: the bytes up to
    and including the first newline, or everything with `io.EOF` if no newline
    remains; also returns the rest of the source. -/
def readStringNL (src : List Nat) : List Nat × Option Err × List Nat :=
  match src.findIdx? (fun c => c == 10) with
  | some i => (src.take (i + 1), none, src.drop (i + 1))
  | none => (src, some .eof, [])

/-- `strings.TrimSuffix(line, "\r\n")`. -/
def trimSuffixCRLF (l : List Nat) : List Nat :=
  if l.getLast? = some 10 ∧ l.dropLast.getLast? = some 13 then
    l.dropLast.dropLast
  else l

/-- `chunkedReader.nextChunkSize`: read one line, trim space, drop a `;`
    chunk-extension suffix, parse the rest as non-negative hex.  Returns the
    size and the rest of the source. -/
def nextChunkSize (src : List Nat) : Except Err (Nat × List Nat) :=
  let r := readStringNL src
  match r.2.1 with
  | some e => .error e
  | none =>
      let line := asciiTrimSpace r.1
      if line.isEmpty then .error .badChunk
      else
        let line2 :=
          match line.findIdx? (fun c => c == 59) with
          | some i => line.take i
          | none => line
        match parseGoInt 16 line2 with
        | none => .error .badChunk
        | some v => if v < 0 then .error .badChunk else .ok (v.toNat, r.2.2)

/-- `chunkedReader.readTrailers`: read lines until an empty `\r\n` line; each
    non-empty line must be `key: value` (first ':' at a positive index) and is
    added to the caller-owned header store.  Returns the grown header store and
    the rest of the source. -/
def readTrailersF : Nat → List Nat → HeaderM → Except Err (HeaderM × List Nat)
  | 0, _, _ => .error .unexpectedTrailer
  | fuel + 1, src, hdr =>
      match src.findIdx? (fun c => c == 10) with
      | none => .error .unexpectedTrailer
      | some i =>
          let line := src.take (i + 1)
          let rest := src.drop (i + 1)
          if line = [13, 10] then .ok (hdr, rest)
          else
            let l2 := trimSuffixCRLF line
            match l2.findIdx? (fun c => c == 58) with
            | none => .error .unexpectedTrailer
            | some j =>
                if j = 0 then .error .unexpectedTrailer
                else
                  readTrailersF fuel rest
                    (hAdd hdr (CanonicalHeaderKey (l2.take j))
                      (asciiTrimSpace (l2.drop (j + 1))))

/-- `chunkedReader.readTrailers` over the remaining source (the loop runs at
    most once per remaining byte since every line holds at least its `\n`, so
    `length + 1` rounds of structural fuel are exhaustive). -/
def readTrailers (src : List Nat) (hdr : HeaderM) :
    Except Err (HeaderM × List Nat) :=
  readTrailersF (src.length + 1) src hdr

/-- State of `chunkedReader`. -/
structure chunkedReader where
  ctxDone : Bool
  src : List Nat
  state : chunkState
  remain : Nat
  limit : Nat
  readTotal : Nat
  header : HeaderM
  deriving DecidableEq

/-- `newChunkedReader(ctx, src, limit, hdr)`. -/
def newChunkedReader (ctxDone : Bool) (src : List Nat) (limit : Nat)
    (hdr : HeaderM) : chunkedReader :=
  ⟨ctxDone, src, .stateChunkHeader, 0, limit, 0, hdr⟩

/-- `chunkedReader.Read` with a caller buffer of length `plen`. -/
def chunkedReader.Read (c : chunkedReader) (plen : Nat) :
    List Nat × Option Err × chunkedReader :=
  if c.ctxDone then ([], some .canceled, c)
  else
    match c.state with
    | .stateDone => ([], some .eof, c)
    | .stateChunkHeader =>
        match nextChunkSize c.src with
        | .error e => ([], some e, c)
        | .ok (size, rest) =>
            if size = 0 then
              ([], none, { c with src := rest, state := .stateTrailer })
            else
              ([], none,
                { c with src := rest, state := .stateChunkData, remain := size })
    | .stateChunkData =>
        if c.remain = 0 then ([], none, { c with state := .stateChunkCRLF })
        else
          let r := srcRead c.src (min plen c.remain)
          let remain' := c.remain - r.1.length
          let rt' := c.readTotal + r.1.length
          let c' : chunkedReader :=
            { c with src := r.2.2, remain := remain', readTotal := rt' }
          if 0 < c.limit ∧ c.limit < rt' then (r.1, some .bodyTooLarge, c')
          else
            match r.2.1 with
            | some e => (r.1, some e, c')
            | none =>
                if remain' = 0 then
                  (r.1, none, { c' with state := .stateChunkCRLF })
                else (r.1, none, c')
    | .stateChunkCRLF =>
        let r := readStringNL c.src
        match r.2.1 with
        | some _ => ([], some .badChunk, { c with src := r.2.2 })
        | none =>
            if r.1 = [13, 10] then
              ([], none, { c with src := r.2.2, state := .stateChunkHeader })
            else ([], some .badChunk, { c with src := r.2.2 })
    | .stateTrailer =>
        match readTrailers c.src c.header with
        | .error e => ([], some e, c)
        | .ok (hdr', rest) =>
            ([], some .eof,
              { c with src := rest, header := hdr', state := .stateDone })

/-- Drain loop for `chunkedReader`. -/
def drainChunked :
    Nat → chunkedReader → Nat → List Nat × Option Err × chunkedReader
  | 0, c, _ => ([], none, c)
  | fuel + 1, c, b =>
      let s := c.Read b
      match s.2.1 with
      | some e => (s.1, some e, s.2.2)
      | none =>
          let r := drainChunked fuel s.2.2 b
          (s.1 ++ r.1, r.2.1, r.2.2)

-- -----------------------------------------------------------------------------
-- NewBodyReader: body framing selection
-- -----------------------------------------------------------------------------

/-- The reader chosen by `NewBodyReader`. -/
inductive bodyReader where
  | chunked (c : chunkedReader)
  | fixed (f : fixedReader)
  | closeDelim (c : closeReader)
  deriving DecidableEq

/-- `NewBodyReader(ctx, req, r, maxSize)`: Transfer-Encoding chunked first,
    then Content-Length (parse failures to LengthMismatch, declared length
    over a positive cap to BodyTooLarge, before any source read), else
    close-delimited.  Returns the reader and the known length (-1 unknown). -/
def NewBodyReader (ctxDone : Bool) (h : HeaderM) (src : List Nat)
    (maxSize : Nat) : Except Err (bodyReader × Int) :=
  if equalFoldAscii (hGet h (strBytes "Transfer-Encoding")) (strBytes "chunked") then
    .ok (.chunked (newChunkedReader ctxDone src maxSize h), -1)
  else
    let cl := hGet h (strBytes "Content-Length")
    if cl.isEmpty then .ok (.closeDelim ⟨ctxDone, src, maxSize, 0⟩, -1)
    else
      match parseGoInt 10 (asciiTrimSpace cl) with
      | none => .error .lengthMismatch
      | some v =>
          if v < 0 then .error .lengthMismatch
          else if 0 < maxSize ∧ (maxSize : Int) < v then .error .bodyTooLarge
          else .ok (.fixed ⟨ctxDone, src, v.toNat, maxSize, 0⟩, v)

-- -----------------------------------------------------------------------------
-- chunkedWriter and WriteResponse
-- -----------------------------------------------------------------------------

/-- Wire bytes emitted by one `chunkedWriter.Write(p)`: nothing for an empty
    buffer, otherwise `<lowercase-hex-len>\r\n<p>\r\n`. -/
def writeChunk (p : List Nat) : List Nat :=
  if p.isEmpty then [] else toHexBytes p.length ++ [13, 10] ++ p ++ [13, 10]

/-- Wire bytes of a sequence of `chunkedWriter.Write` calls followed by
    `Close` (which emits the terminal `0\r\n\r\n`). -/
def chunkedWriterBytes (bufs : List (List Nat)) : List Nat :=
  (bufs.map writeChunk).flatten ++ [48, 13, 10, 13, 10]

/-- `Response`: proto, status code, status text, headers, optional body
    (the body source modelled as the byte sequence it will produce). -/
structure Response where
  Proto : List Nat
  StatusCode : Nat
  Status : List Nat
  Header : HeaderM
  Body : Option (List Nat)
  deriving DecidableEq

/-- Header section bytes: one `Canonical-Key: value\r\n` line per value, in
    the model's fixed iteration order. -/
def headerLines (h : HeaderM) : List Nat :=
  (h.map (fun e =>
    (e.2.map (fun v => CanonicalHeaderKey e.1 ++ [58, 32] ++ v ++ [13, 10])).flatten)).flatten

/-- `WriteResponse(ctx, w, resp)`: cancellation check, status line, header
    lines, blank line, then the body in the framing chosen by inspecting
    Content-Length first, then Transfer-Encoding: chunked, else until-close.
    The result is the full wire byte sequence on success; an error result
    carries no bytes (mid-stream sink contents are not modelled).  The fixed
    path mirrors `io.CopyN` (short body source propagates `io.EOF`); the
    chunked path mirrors `io.Copy`'s 32 KiB read partition into the writer. -/
def WriteResponse (ctxDone : Bool) (resp : Response) : Except Err (List Nat) :=
  if ctxDone then .error .canceled
  else
    let proto := if resp.Proto.isEmpty then strBytes "HTTP/1.1" else resp.Proto
    let status :=
      if resp.Status.isEmpty then decBytes resp.StatusCode else resp.Status
    let head := proto ++ [32] ++ decBytes resp.StatusCode ++ [32] ++ status ++
      [13, 10] ++ headerLines resp.Header ++ [13, 10]
    match resp.Body with
    | none => .ok head
    | some body =>
        let cl := hGet resp.Header (strBytes "Content-Length")
        if ¬cl.isEmpty then
          match parseGoInt 10 (asciiTrimSpace cl) with
          | none => .error .lengthMismatch
          | some v =>
              if v < 0 then .error .lengthMismatch
              else if body.length < v.toNat then .error .eof
              else .ok (head ++ body.take v.toNat)
        else if equalFoldAscii (hGet resp.Header (strBytes "Transfer-Encoding"))
            (strBytes "chunked") then
          .ok (head ++ chunkedWriterBytes (chunksOf 32768 body))
        else .ok (head ++ body)

-- -----------------------------------------------------------------------------
-- netx.CRLFFastReader.ReadLine
-- -----------------------------------------------------------------------------

/-- Strip exactly one trailing `\n`, and one `\r` immediately before it, from
    a completed line (the success branch of `ReadLine`). -/
def stripNL (l : List Nat) : List Nat :=
  if l.getLast? = some 10 then
    if l.dropLast.getLast? = some 13 then l.dropLast.dropLast else l.dropLast
  else l

/-- The accumulation loop of `CRLFFastReader.ReadLine` with
    `bufio.ReadSlice('\n')` inlined over the modelled source (internal buffer
    size `DefaultBufSize = 4096`): a slice is the bytes through the first
    newline when one occurs in the next 4096 bytes, else 4096 bytes with
    `bufio.ErrBufferFull`, else the remainder with `io.EOF`.  The limit check
    `len(buf)+len(part) > max` runs before the slice's error is examined.
    Result: (line — `none` for Go's nil —, the isPrefix flag, error). -/
def readLineLoop : Nat → List Nat → List Nat → Nat →
    Option (List Nat) × Bool × Option Err
  | 0, _, _, _ => (none, false, some .eof)
  | fuel + 1, src, buf, max =>
      match (src.take 4096).findIdx? (fun c => c == 10) with
      | some i =>
          let part := src.take (i + 1)
          if max < buf.length + part.length then (none, true, some .lineTooLong)
          else (some (stripNL (buf ++ part)), false, none)
      | none =>
          if 4096 ≤ src.length then
            if max < buf.length + 4096 then (none, true, some .lineTooLong)
            else readLineLoop fuel (src.drop 4096) (buf ++ src.take 4096) max
          else
            if max < buf.length + src.length then (none, true, some .lineTooLong)
            else if buf.length + src.length = 0 then (none, false, some .eof)
            else (some (buf ++ src), false, some .eof)

/-- `CRLFFastReader.ReadLine(max)`.  Go's `max` is an `int`; a non-positive
    `max` is rejected up front, so `max : Nat` with 0 standing for every
    non-positive value.  The loop consumes 4096 bytes per round, so
    `length + 1` rounds of structural fuel are exhaustive. -/
def ReadLine (src : List Nat) (max : Nat) :
    Option (List Nat) × Bool × Option Err :=
  if max = 0 then (none, false, some .invalidMax)
  else readLineLoop (src.length + 1) src [] max

-- -----------------------------------------------------------------------------
-- Step counts for the chunked drain loop (proof bookkeeping only)
-- -----------------------------------------------------------------------------

/-- Number of `chunkedReader.Read` calls, with buffer size `b`, spent in
    `stateChunkData` to deliver `r` payload bytes. -/
def dataSteps (b r : Nat) : Nat :=
  if h : r = 0 ∨ b = 0 then 0 else 1 + dataSteps b (r - min b r)
  termination_by r
  decreasing_by
    simp only [not_or] at h
    have hb := Nat.pos_of_ne_zero h.2
    have hr := Nat.pos_of_ne_zero h.1
    omega

/-- Read calls needed to decode one encoded chunk (header line, data, CRLF). -/
def chunkSteps (b : Nat) (buf : List Nat) : Nat :=
  if buf.isEmpty then 0 else 2 + dataSteps b buf.length

/-- Read calls needed to decode a list of encoded chunks. -/
def sumSteps (b : Nat) (bufs : List (List Nat)) : Nat :=
  (bufs.map (chunkSteps b)).sum

-- -----------------------------------------------------------------------------
-- Theorems
-- -----------------------------------------------------------------------------

/-- C9: with a pre-signaled cancellation, every body-reader Read (fixed-length,
    chunked, close-delimited) and WriteResponse fails immediately with the
    cancellation error, leaving the reader state (in particular its source)
    untouched and producing no output bytes. -/
theorem c9_cancellation_first (f : fixedReader) (ch : chunkedReader)
    (c : closeReader) (resp : Response) (p1 p2 p3 : Nat)
    (hf : f.ctxDone = true) (hch : ch.ctxDone = true) (hc : c.ctxDone = true) :
    fixedReader.Read f p1 = ([], some .canceled, f) ∧
    chunkedReader.Read ch p2 = ([], some .canceled, ch) ∧
    closeReader.Read c p3 = ([], some .canceled, c) ∧
    WriteResponse true resp = .error .canceled := by
  refine ⟨?_, ?_, ?_, ?_⟩
  · simp [fixedReader.Read, hf]
  · simp [chunkedReader.Read, hch]
  · simp [closeReader.Read, hc]
  · simp [WriteResponse]

theorem c9_cancellation_first_witness :
    fixedReader.Read ⟨true, [7], 1, 0, 0⟩ 1 = ([], some .canceled, ⟨true, [7], 1, 0, 0⟩) ∧
    chunkedReader.Read (newChunkedReader true [7] 0 []) 1 =
      ([], some .canceled, newChunkedReader true [7] 0 []) ∧
    closeReader.Read ⟨true, [7], 0, 0⟩ 1 = ([], some .canceled, ⟨true, [7], 0, 0⟩) ∧
    WriteResponse true ⟨[], 200, [], [], none⟩ = .error .canceled :=
  c9_cancellation_first ⟨true, [7], 1, 0, 0⟩ (newChunkedReader true [7] 0 [])
    ⟨true, [7], 0, 0⟩ ⟨[], 200, [], [], none⟩ 1 1 1 rfl rfl rfl

/-- C10: a fixed-length reader built by `NewBodyReader` satisfies the cap
    invariant `limit = 0 ∨ readTotal + n ≤ limit` (the declared length was
    checked against a positive cap before construction), the invariant is
    preserved by every `Read` (each read is capped to the remaining count),
    and under it the `BodyTooLarge` branch of `fixedReader.Read` is
    unreachable. -/
theorem c10_fixed_bodyTooLarge_unreachable (ctx : Bool) (h : HeaderM)
    (src : List Nat) (maxSize : Nat) (st : fixedReader) (kl : Int)
    (f : fixedReader) (plen : Nat)
    (hsel : NewBodyReader ctx h src maxSize = .ok (.fixed st, kl))
    (hinv : f.limit = 0 ∨ f.readTotal + f.n ≤ f.limit) :
    (st.limit = 0 ∨ st.readTotal + st.n ≤ st.limit) ∧
    (fixedReader.Read f plen).2.1 ≠ some .bodyTooLarge ∧
    ((fixedReader.Read f plen).2.2.limit = 0 ∨
      (fixedReader.Read f plen).2.2.readTotal + (fixedReader.Read f plen).2.2.n ≤
        (fixedReader.Read f plen).2.2.limit) := by
  refine ⟨?_, ?_⟩
  · simp only [NewBodyReader] at hsel
    split at hsel
    · simp at hsel
    · split at hsel
      · simp at hsel
      · split at hsel
        · simp at hsel
        · rename_i v hv
          split at hsel
          · simp at hsel
          · split at hsel
            · simp at hsel
            · rename_i hneg hcap
              rw [Except.ok.injEq, Prod.mk.injEq] at hsel
              obtain ⟨hbr, -⟩ := hsel
              rw [bodyReader.fixed.injEq] at hbr
              subst hbr
              simp only [not_lt] at hneg
              rcases Nat.eq_zero_or_pos maxSize with h0 | hpos
              · left; simp [h0]
              · right
                have : (maxSize : Int) ≥ v := by
                  by_contra hlt
                  exact hcap ⟨hpos, by omega⟩
                simp only
                omega
  · have hd : (srcRead f.src (min plen f.n)).1.length ≤ f.n := by
      simp only [srcRead]
      split
      · simp
      · simp only [List.length_take]
        omega
    constructor
    · simp only [fixedReader.Read]
      split
      · simp
      · split
        · simp
        · rename_i hn0
          split
          · rename_i hbig
            exfalso
            rcases hinv with h0 | hle
            · omega
            · omega
          · split
            · simp
            · split
              · simp
              · rename_i hre hnz
                intro hcon
                rcases hcon0 : (srcRead f.src (min plen f.n)).2.1 with - | e
                · rw [hcon0] at hcon; simp at hcon
                · rw [hcon0] at hcon
                  simp only [srcRead] at hcon0
                  split at hcon0
                  · simp at hcon0
                    rw [← hcon0] at hcon
                    simp at hcon
                  · simp at hcon0
    · simp only [fixedReader.Read]
      split
      · exact hinv
      · split
        · exact hinv
        · rename_i hn0
          rcases hinv with h0 | hle
          · split
            · left; simp [h0]
            · split
              · left; simp [h0]
              · split
                · left; simp [h0]
                · left; simp [h0]
          · have key : f.readTotal + (srcRead f.src (min plen f.n)).1.length +
                (f.n - (srcRead f.src (min plen f.n)).1.length) ≤ f.limit := by
              omega
            split
            · right; simpa using key
            · split
              · right; simpa using key
              · split
                · right; simpa using key
                · right; simpa using key

theorem c10_fixed_bodyTooLarge_unreachable_witness :
    ((⟨false, [9, 9], 2, 3, 0⟩ : fixedReader).limit = 0 ∨
      (⟨false, [9, 9], 2, 3, 0⟩ : fixedReader).readTotal +
        (⟨false, [9, 9], 2, 3, 0⟩ : fixedReader).n ≤
        (⟨false, [9, 9], 2, 3, 0⟩ : fixedReader).limit) ∧
    (fixedReader.Read ⟨false, [9, 9], 2, 3, 0⟩ 1).2.1 ≠ some .bodyTooLarge ∧
    ((fixedReader.Read ⟨false, [9, 9], 2, 3, 0⟩ 1).2.2.limit = 0 ∨
      (fixedReader.Read ⟨false, [9, 9], 2, 3, 0⟩ 1).2.2.readTotal +
        (fixedReader.Read ⟨false, [9, 9], 2, 3, 0⟩ 1).2.2.n ≤
        (fixedReader.Read ⟨false, [9, 9], 2, 3, 0⟩ 1).2.2.limit) := by
  have hgate := c10_fixed_bodyTooLarge_unreachable false
    [(strBytes "Content-Length", [strBytes "2"])] [9, 9] 3
    ⟨false, [9, 9], 2, 3, 0⟩ 2 ⟨false, [9, 9], 2, 3, 0⟩ 1 (by decide) (by decide)
  exact ⟨hgate.1, hgate.2⟩

/-- C5: in `NewBodyReader`, when Transfer-Encoding is not `chunked` and a
    Content-Length header is present: a value that does not parse as a
    non-negative base-10 integer fails with LengthMismatch; a parsed value
    exceeding a positive `maxSize` fails with BodyTooLarge (without any source
    interaction: the result does not depend on `src`); otherwise a
    fixed-length reader with exactly that remaining count is returned together
    with that known length. -/
theorem c5_content_length_selection (ctx : Bool) (h : HeaderM) (src : List Nat)
    (maxSize : Nat) (v : Int)
    (hte : equalFoldAscii (hGet h (strBytes "Transfer-Encoding"))
      (strBytes "chunked") = false)
    (hcl : (hGet h (strBytes "Content-Length")).isEmpty = false) :
    (parseGoInt 10 (asciiTrimSpace (hGet h (strBytes "Content-Length"))) = none ∨
      (parseGoInt 10 (asciiTrimSpace (hGet h (strBytes "Content-Length"))) = some v ∧
        v < 0) →
      NewBodyReader ctx h src maxSize = .error .lengthMismatch) ∧
    (parseGoInt 10 (asciiTrimSpace (hGet h (strBytes "Content-Length"))) = some v →
      0 ≤ v → 0 < maxSize → (maxSize : Int) < v →
      NewBodyReader ctx h src maxSize = .error .bodyTooLarge) ∧
    (parseGoInt 10 (asciiTrimSpace (hGet h (strBytes "Content-Length"))) = some v →
      0 ≤ v → ¬(0 < maxSize ∧ (maxSize : Int) < v) →
      NewBodyReader ctx h src maxSize =
        .ok (.fixed ⟨ctx, src, v.toNat, maxSize, 0⟩, v)) := by
  refine ⟨?_, ?_, ?_⟩
  · rintro (hp | ⟨hp, hv⟩)
    · simp [NewBodyReader, hte, hcl, hp]
    · simp only [NewBodyReader, hte, hcl]
      simp only [Bool.false_eq_true, if_false, hp]
      rw [if_pos hv]
  · intro hp h0 hpos hover
    simp only [NewBodyReader, hte, hcl]
    simp only [Bool.false_eq_true, if_false, hp]
    rw [if_neg (by omega), if_pos ⟨hpos, hover⟩]
  · intro hp h0 hcap
    simp only [NewBodyReader, hte, hcl]
    simp only [Bool.false_eq_true, if_false, hp]
    rw [if_neg (by omega), if_neg hcap]

theorem c5_content_length_selection_witness :
    (parseGoInt 10 (asciiTrimSpace (hGet [(strBytes "Content-Length",
        [strBytes "2"])] (strBytes "Content-Length"))) = none ∨
      (parseGoInt 10 (asciiTrimSpace (hGet [(strBytes "Content-Length",
        [strBytes "2"])] (strBytes "Content-Length"))) = some 2 ∧ (2 : Int) < 0) →
      NewBodyReader false [(strBytes "Content-Length", [strBytes "2"])] [9, 9] 3 =
        .error .lengthMismatch) ∧
    (parseGoInt 10 (asciiTrimSpace (hGet [(strBytes "Content-Length",
        [strBytes "2"])] (strBytes "Content-Length"))) = some 2 →
      (0 : Int) ≤ 2 → 0 < 3 → (3 : Int) < 2 →
      NewBodyReader false [(strBytes "Content-Length", [strBytes "2"])] [9, 9] 3 =
        .error .bodyTooLarge) ∧
    (parseGoInt 10 (asciiTrimSpace (hGet [(strBytes "Content-Length",
        [strBytes "2"])] (strBytes "Content-Length"))) = some 2 →
      (0 : Int) ≤ 2 → ¬(0 < 3 ∧ (3 : Int) < 2) →
      NewBodyReader false [(strBytes "Content-Length", [strBytes "2"])] [9, 9] 3 =
        .ok (.fixed ⟨false, [9, 9], (2 : Int).toNat, 3, 0⟩, 2)) :=
  c5_content_length_selection false [(strBytes "Content-Length", [strBytes "2"])]
    [9, 9] 3 2 (by decide) (by decide)

/-- One non-terminal `fixedReader.Read` step over an uncapped reader in normal
    form: either the source is exhausted (LengthMismatch) or bytes flow. -/
theorem fixedRead_step (src : List Nat) (n rt b : Nat) (hn : n ≠ 0) :
    fixedReader.Read ⟨false, src, n, 0, rt⟩ b =
      if src.isEmpty then ([], some .lengthMismatch, ⟨false, [], n, 0, rt⟩)
      else if n - min (min b n) src.length = 0 then
        (src.take (min b n), some .eof,
          ⟨false, src.drop (min b n), n - min (min b n) src.length, 0,
            rt + min (min b n) src.length⟩)
      else
        (src.take (min b n), none,
          ⟨false, src.drop (min b n), n - min (min b n) src.length, 0,
            rt + min (min b n) src.length⟩) := by
  by_cases hsrc : src.isEmpty
  · simp [fixedReader.Read, srcRead, hsrc, hn, Nat.pos_of_ne_zero hn]
  · simp only [fixedReader.Read, srcRead, hsrc, if_false, Bool.false_eq_true,
      List.length_take]
    have hd : min (min b n) src.length ≤ n := by omega
    split
    · rename_i hx
      exact absurd hx hn
    · split
      · rename_i hbig
        exact absurd hbig (by simp)
      · split
        · rename_i heof
          exact absurd heof (by simp)
        · split
          · rfl
          · rfl

/-- Draining an uncapped `fixedReader` whose remaining count is at least the
    source length: delivers the whole source, then EOF when the count matches
    exactly, LengthMismatch when the source is short. -/
theorem drainFixed_exact (fuel : Nat) : ∀ (src : List Nat) (n rt b : Nat),
    0 < b → 0 < n → src.length ≤ n → src.length < fuel →
    drainFixed fuel ⟨false, src, n, 0, rt⟩ b =
      (src, some (if src.length = n then Err.eof else Err.lengthMismatch),
        ⟨false, [], n - src.length, 0, rt + src.length⟩) := by
  induction fuel with
  | zero => intro src n rt b _ _ _ hf; omega
  | succ fuel ih =>
    intro src n rt b hb hn hlen hf
    rw [drainFixed]
    rw [fixedRead_step src n rt b (by omega)]
    by_cases hsrc : src.isEmpty
    · have h0 : src = [] := List.isEmpty_iff.mp hsrc
      subst h0
      have h1 : ¬((0 : Nat) = n) := by omega
      have h2 : ¬(n = 0) := by omega
      simp [h1, h2]
    · rw [if_neg hsrc]
      have hlp : 0 < src.length := by
        cases src with
        | nil => simp at hsrc
        | cons a t => simp
      have hd1 : 1 ≤ min (min b n) src.length := by
        simp only [le_min_iff]
        omega
      have hchoice := min_choice (min b n) src.length
      have hd2 : min (min b n) src.length ≤ src.length := Nat.min_le_right _ _
      by_cases hz : n - min (min b n) src.length = 0
      · rw [if_pos hz]
        have hdn : min (min b n) src.length = n := by omega
        have hln : src.length = n := by omega
        have htk : src.take (min b n) = src := List.take_of_length_le (by omega)
        have hdr : src.drop (min b n) = [] := List.drop_eq_nil_of_le (by omega)
        simp only [htk, hdr, hln]
        have h1 : (n : Nat) - b ⊓ n = 0 := by omega
        have h2 : n ≤ b := by omega
        simp [hz, hdn, hln, h1, h2]
      · rw [if_neg hz]
        simp only
        rw [ih (src.drop (min b n)) (n - min (min b n) src.length)
          (rt + min (min b n) src.length) b hb (by omega)
          (by simp only [List.length_drop]; omega)
          (by simp only [List.length_drop]; omega)]
        rw [List.take_append_drop]
        simp only [List.length_drop]
        have hcond : (src.length - b ⊓ n =
            n - b ⊓ n ⊓ src.length) = (src.length = n) := by
          apply propext
          constructor
          · intro hq; omega
          · intro hq; omega
        simp only [hcond, Prod.mk.injEq, fixedReader.mk.injEq]
        and_intros <;>
          first
          | trivial
          | (rcases hchoice with hc | hc <;> rw [hc] at hd2 hz ⊢ <;> omega)

/-- C4: an uncapped fixed-length reader with declared count N over a source of
    exactly N bytes yields those N bytes and then EOF with no error; once
    `remaining = 0` every further read keeps reporting EOF with no bytes and
    unchanged state; over a shorter source it yields the bytes present and
    fails with LengthMismatch. -/
theorem c4_fixed_length_exactness (src : List Nat) (N b : Nat) (f : fixedReader)
    (hb : 0 < b) (hf1 : f.ctxDone = false) (hf2 : f.n = 0) (hN : src.length < N) :
    drainFixed (src.length + 1) ⟨false, src, src.length, 0, 0⟩ b =
      (src, some .eof, ⟨false, [], 0, 0, src.length⟩) ∧
    fixedReader.Read f b = ([], some .eof, f) ∧
    drainFixed (src.length + 1) ⟨false, src, N, 0, 0⟩ b =
      (src, some .lengthMismatch, ⟨false, [], N - src.length, 0, src.length⟩) := by
  refine ⟨?_, ?_, ?_⟩
  · rcases src with - | ⟨x, xs⟩
    · simp [drainFixed, fixedReader.Read]
    · rw [drainFixed_exact (List.length (x :: xs) + 1) (x :: xs)
        (List.length (x :: xs)) 0 b hb (by simp) (by omega) (by omega)]
      simp
  · rw [show f = ⟨false, f.src, 0, f.limit, f.readTotal⟩ by
      cases f; simp_all]
    simp [fixedReader.Read]
  · rw [drainFixed_exact (src.length + 1) src N 0 b hb (by omega) (by omega)
      (by omega)]
    have : ¬(src.length = N) := by omega
    simp [this]

theorem c4_fixed_length_exactness_witness :
    drainFixed 3 ⟨false, [5, 6], 2, 0, 0⟩ 1 =
      ([5, 6], some .eof, ⟨false, [], 0, 0, 2⟩) ∧
    fixedReader.Read ⟨false, [7], 0, 0, 4⟩ 1 =
      ([], some .eof, ⟨false, [7], 0, 0, 4⟩) ∧
    drainFixed 3 ⟨false, [5, 6], 5, 0, 0⟩ 1 =
      ([5, 6], some .lengthMismatch, ⟨false, [], 3, 0, 2⟩) :=
  c4_fixed_length_exactness [5, 6] 5 1 ⟨false, [7], 0, 0, 4⟩ (by decide) rfl rfl
    (by decide)

/-- Taking `j` elements is the same as taking `min j (length)` elements. -/
theorem take_min_length (l : List α) (j : Nat) :
    l.take j = l.take (min j l.length) := by
  rcases le_or_lt j l.length with hle | hlt
  · rw [Nat.min_eq_left hle]
  · rw [Nat.min_eq_right (by omega), List.take_of_length_le (by omega),
      List.take_length]

/-- Dropping `j` elements is the same as dropping `min j (length)` elements. -/
theorem drop_min_length (l : List α) (j : Nat) :
    l.drop j = l.drop (min j l.length) := by
  rcases le_or_lt j l.length with hle | hlt
  · rw [Nat.min_eq_left hle]
  · rw [Nat.min_eq_right (by omega), List.drop_eq_nil_of_le (by omega),
      List.drop_length]

/-- One `closeReader.Read` step under a positive cap not yet reached: reads are
    capped to the remaining allowance, so the step never errors except for a
    clean EOF on an exhausted source; `m` is the byte count actually moved. -/
theorem closeRead_step (src : List Nat) (k rt b : Nat) (hrt : rt < k) :
    closeReader.Read ⟨false, src, k, rt⟩ b =
      if src.isEmpty then ([], some .eof, ⟨false, [], k, rt⟩)
      else
        (src.take (min (min b (k - rt)) src.length), none,
          ⟨false, src.drop (min (min b (k - rt)) src.length), k,
            rt + min (min b (k - rt)) src.length⟩) := by
  by_cases hsrc : src.isEmpty
  · have h0 : src = [] := List.isEmpty_iff.mp hsrc
    subst h0
    rw [if_pos hsrc]
    simp only [closeReader.Read, srcRead, List.isEmpty_nil, if_true]
    rw [if_neg (by simp), if_neg (by omega : ¬(0 < k ∧ k - rt = 0))]
    simp
    omega
  · rw [if_neg hsrc]
    simp only [closeReader.Read, srcRead, hsrc, Bool.false_eq_true, if_false,
      List.length_take]
    rw [if_neg (by omega : ¬(0 < k ∧ k - rt = 0)), if_pos (by omega : 0 < k)]
    have hchoice := min_choice (min b (k - rt)) src.length
    rw [if_neg ?hcap]
    case hcap =>
      rcases hchoice with hc | hc <;> rw [hc] <;>
        simp only [not_and, not_lt] <;> intro <;> omega
    rw [take_min_length src (min b (k - rt)), drop_min_length src (min b (k - rt))]

/-- Draining a `closeReader` whose positive cap `k` is not yet reached: it
    delivers `min (k - readTotal) (length src)` bytes (silently truncating a
    longer source at the cap) and then reports a plain EOF, never
    BodyTooLarge. -/
theorem drainClose_capped (fuel : Nat) : ∀ (src : List Nat) (k rt b : Nat),
    0 < b → rt < k → src.length < fuel →
    drainClose fuel ⟨false, src, k, rt⟩ b =
      (src.take (k - rt), some .eof,
        ⟨false, src.drop (k - rt), k, min k (rt + src.length)⟩) := by
  induction fuel with
  | zero => intro src k rt b _ _ hf; omega
  | succ fuel ih =>
    intro src k rt b hb hrt hf
    rw [drainClose]
    rw [closeRead_step src k rt b hrt]
    by_cases hsrc : src.isEmpty
    · have h0 : src = [] := List.isEmpty_iff.mp hsrc
      subst h0
      simp only [List.isEmpty_nil, if_true]
      simp only [List.take_nil, List.drop_nil, List.length_nil, Nat.add_zero]
      have : min k rt = rt := by omega
      simp [this]
    · rw [if_neg hsrc]
      have hlp : 0 < src.length := by
        cases src with
        | nil => simp at hsrc
        | cons a t => simp
      set m := min (min b (k - rt)) src.length with hm
      have hd1 : 1 ≤ m := by
        rw [hm]
        simp only [le_min_iff]
        omega
      have hd2 : m ≤ src.length := Nat.min_le_right _ _
      have hd3 : m ≤ k - rt := le_trans (Nat.min_le_left _ _) (Nat.min_le_right _ _)
      by_cases hfull : rt + m = k
      · simp only
        rcases fuel with - | fuel'
        · omega
        · rw [drainClose]
          have hstep2 : closeReader.Read ⟨false, src.drop m, k, rt + m⟩ b
              = ([], some .eof, ⟨false, src.drop m, k, rt + m⟩) := by
            simp only [closeReader.Read]
            rw [if_neg (by simp), if_pos (by omega)]
          rw [hstep2]
          simp only
          have hmk : m = k - rt := by omega
          have hmin : min k (rt + src.length) = k := by omega
          rw [hfull, hmk, hmin]
          simp
      · simp only
        have hlt : rt + m < k := by omega
        rw [ih (src.drop m) k (rt + m) b hb hlt
          (by simp only [List.length_drop]; omega)]
        have htk : src.take m ++ (src.drop m).take (k - (rt + m)) =
            src.take (k - rt) := by
          rw [← List.take_add]
          congr 1
          omega
        have hdr : (src.drop m).drop (k - (rt + m)) = src.drop (k - rt) := by
          rw [List.drop_drop]
          congr 1
          omega
        have hmin : min k (rt + m + (src.drop m).length) =
            min k (rt + src.length) := by
          simp only [List.length_drop]
          omega
        rw [htk, hdr, hmin]

/-- A source read returns at most the requested number of bytes. -/
theorem srcRead_length_le (src : List Nat) (j : Nat) :
    (srcRead src j).1.length ≤ j := by
  simp only [srcRead]
  split
  · simp
  · simp only [List.length_take]
    omega

/-- A source read errors only with a clean EOF. -/
theorem srcRead_err (src : List Nat) (j : Nat) :
    (srcRead src j).2.1 = none ∨ (srcRead src j).2.1 = some Err.eof := by
  simp only [srcRead]
  split <;> simp

/-- C1 counterexample: `closeReader` with cap `maxBodyBytes = 2` over a source
    of 3 = k+1 bytes does not fail with BodyTooLarge; it delivers the first 2
    bytes and reports a normal end-of-stream. -/
theorem c1_close_counterexample :
    drainClose 5 ⟨false, [1, 2, 3], 2, 0⟩ 4096 =
      ([1, 2], some Err.eof, ⟨false, [3], 2, 2⟩) ∧
    some Err.eof ≠ some Err.bodyTooLarge := by decide

/-- C1 amended: a close-delimited reader with positive cap `k` caps each read
    to the remaining allowance, so a longer source is silently truncated: the
    drain delivers `src.take k` and then reports a normal end-of-stream (for a
    source of exactly `k` bytes this is the whole source), and no
    `closeReader.Read` under a positive cap can ever return BodyTooLarge. -/
theorem c1_close_cap_truncates (src : List Nat) (k b : Nat) (c : closeReader)
    (plen : Nat) (hk : 0 < k) (hb : 0 < b) (hc : 0 < c.limit) :
    drainClose (src.length + 1) ⟨false, src, k, 0⟩ b =
      (src.take k, some .eof, ⟨false, src.drop k, k, min k src.length⟩) ∧
    (closeReader.Read c plen).2.1 ≠ some .bodyTooLarge := by
  constructor
  · have h := drainClose_capped (src.length + 1) src k 0 b hb (by omega)
      (by omega)
    simpa using h
  · simp only [closeReader.Read]
    split
    · simp
    · split
      · simp
      · rename_i h1 h2
        have hrt : c.readTotal < c.limit := by omega
        have hdle := srcRead_length_le c.src (min plen (c.limit - c.readTotal))
        have hple : min plen (c.limit - c.readTotal) ≤ c.limit - c.readTotal :=
          Nat.min_le_right _ _
        split
        · rename_i hbig
          exfalso
          omega
        · rcases srcRead_err c.src (min plen (c.limit - c.readTotal)) with he | he <;>
            simp [he]

theorem c1_close_cap_truncates_witness :
    drainClose 4 ⟨false, [1, 2, 3], 2, 0⟩ 4096 =
      ([1, 2, 3].take 2, some .eof,
        ⟨false, [1, 2, 3].drop 2, 2, min 2 3⟩) ∧
    (closeReader.Read ⟨false, [9], 3, 1⟩ 5).2.1 ≠ some .bodyTooLarge :=
  c1_close_cap_truncates [1, 2, 3] 2 4096 ⟨false, [9], 3, 1⟩ 5 (by decide)
    (by decide) (by decide)

/-- The first newline of `pre ++ 10 :: post` with `10 ∉ pre` sits at index
    `pre.length`. -/
theorem findIdx?_ten (pre post : List Nat) (h : 10 ∉ pre) :
    (pre ++ 10 :: post).findIdx? (fun c => c == 10) = some pre.length := by
  induction pre with
  | nil => simp [List.findIdx?_cons]
  | cons a t iht =>
      have ha : ¬(a = 10) := by
        intro hq
        exact h (by simp [hq])
      have ht : 10 ∉ t := fun hq => h (List.mem_cons_of_mem a hq)
      simp [List.findIdx?_cons, ha, iht ht]

/-- A list without a newline has no newline index. -/
theorem findIdx?_ten_none (l : List Nat) (h : 10 ∉ l) :
    l.findIdx? (fun c => c == 10) = none := by
  induction l with
  | nil => simp
  | cons a t iht =>
      have ha : ¬(a = 10) := by
        intro hq
        exact h (by simp [hq])
      have ht : 10 ∉ t := fun hq => h (List.mem_cons_of_mem a hq)
      simp [List.findIdx?_cons, ha, iht ht]

/-- `stripNL` on a line ending in a bare newline: drops the `\n` and exactly
    one `\r` immediately before it, if present. -/
theorem stripNL_concat (pre : List Nat) :
    stripNL (pre ++ [10]) =
      if pre.getLast? = some 13 then pre.dropLast else pre := by
  simp [stripNL, List.getLast?_concat, List.dropLast_concat]

/-- `readLineLoop` on input whose first newline terminates a prefix `pre`:
    fails with LineTooLong (and a nil line) exactly when the accumulated bytes
    including the terminator exceed `max`, else returns the stripped line. -/
theorem readLineLoop_terminated (fuel : Nat) :
    ∀ (pre post buf : List Nat) (max : Nat), 10 ∉ pre → pre.length < fuel →
    readLineLoop fuel (pre ++ 10 :: post) buf max =
      if max < buf.length + pre.length + 1 then (none, true, some .lineTooLong)
      else (some (stripNL (buf ++ pre ++ [10])), false, none) := by
  induction fuel with
  | zero => intro pre post buf max _ hf; omega
  | succ fuel ih =>
    intro pre post buf max hpre hf
    rw [readLineLoop]
    by_cases hlen : pre.length < 4096
    · have htake : (pre ++ 10 :: post).take 4096 =
          pre ++ (10 :: post).take (4096 - pre.length) := by
        rw [List.take_append_eq_append_take, List.take_of_length_le (by omega)]
      have h1 : 1 ≤ 4096 - pre.length := by omega
      have htk2 : (10 :: post).take (4096 - pre.length) =
          10 :: post.take (4096 - pre.length - 1) := by
        obtain ⟨j, hj⟩ : ∃ j, 4096 - pre.length = j + 1 :=
          ⟨4096 - pre.length - 1, by omega⟩
        rw [hj, List.take_succ_cons]
        simp
      rw [htake, htk2, findIdx?_ten pre _ hpre]
      simp only
      have hpart : (pre ++ 10 :: post).take (pre.length + 1) = pre ++ [10] := by
        rw [List.take_append_eq_append_take, List.take_of_length_le (by omega)]
        congr 1
        have : pre.length + 1 - pre.length = 1 := by omega
        rw [this]
        simp
      rw [hpart]
      simp only [List.length_append, List.length_cons, List.length_nil]
      by_cases hmax : max < buf.length + (pre.length + 1)
      · rw [if_pos (by omega), if_pos (by omega)]
      · rw [if_neg (by omega), if_neg (by omega), List.append_assoc]
    · have htake : (pre ++ 10 :: post).take 4096 = pre.take 4096 := by
        rw [List.take_append_eq_append_take]
        have hz : 4096 - pre.length = 0 := by omega
        rw [hz]
        simp
      have hnotin : 10 ∉ pre.take 4096 := fun hq =>
        hpre (List.take_subset 4096 pre hq)
      rw [htake, findIdx?_ten_none _ hnotin]
      simp only
      rw [if_pos (by simp only [List.length_append, List.length_cons]; omega)]
      by_cases hmax : max < buf.length + 4096
      · rw [if_pos (by omega), if_pos (by omega)]
      · rw [if_neg (by omega)]
        have hdrop : (pre ++ 10 :: post).drop 4096 =
            pre.drop 4096 ++ 10 :: post :=
          List.drop_append_of_le_length (by omega)
        rw [hdrop]
        have hnotin2 : 10 ∉ pre.drop 4096 := fun hq =>
          hpre (List.drop_subset 4096 pre hq)
        rw [ih (pre.drop 4096) post (buf ++ pre.take 4096) max hnotin2
          (by simp only [List.length_drop]; omega)]
        simp only [List.length_append, List.length_take, List.length_drop]
        have hco : (max < buf.length + min 4096 pre.length +
            (pre.length - 4096) + 1) = (max < buf.length + pre.length + 1) := by
          apply propext
          constructor <;> intro <;> omega
        have hbp : buf ++ pre.take 4096 ++ pre.drop 4096 = buf ++ pre := by
          rw [List.append_assoc, List.take_append_drop]
        simp only [hco, hbp]

/-- `readLineLoop` on input with no newline at all: LineTooLong when the
    accumulation exceeds `max`, else the data is returned with the
    end-of-source signal (nil line when nothing accumulated). -/
theorem readLineLoop_unterminated (fuel : Nat) :
    ∀ (src buf : List Nat) (max : Nat), 10 ∉ src → src.length < fuel →
    readLineLoop fuel src buf max =
      if max < buf.length + src.length then (none, true, some .lineTooLong)
      else if buf.length + src.length = 0 then (none, false, some .eof)
      else (some (buf ++ src), false, some .eof) := by
  induction fuel with
  | zero => intro src buf max _ hf; omega
  | succ fuel ih =>
    intro src buf max hsrc hf
    rw [readLineLoop]
    have hnotin : 10 ∉ src.take 4096 := fun hq =>
      hsrc (List.take_subset 4096 src hq)
    rw [findIdx?_ten_none _ hnotin]
    simp only
    by_cases hlen : 4096 ≤ src.length
    · rw [if_pos hlen]
      by_cases hmax : max < buf.length + 4096
      · rw [if_pos (by omega), if_pos (by omega)]
      · rw [if_neg (by omega)]
        have hnotin2 : 10 ∉ src.drop 4096 := fun hq =>
          hsrc (List.drop_subset 4096 src hq)
        rw [ih (src.drop 4096) (buf ++ src.take 4096) max hnotin2
          (by simp only [List.length_drop]; omega)]
        simp only [List.length_append, List.length_take, List.length_drop]
        have hco : (max < buf.length + min 4096 src.length +
            (src.length - 4096)) = (max < buf.length + src.length) := by
          apply propext
          constructor <;> intro <;> omega
        have hco2 : (buf.length + min 4096 src.length +
            (src.length - 4096) = 0) = (buf.length + src.length = 0) := by
          apply propext
          constructor <;> intro <;> omega
        have hbp : buf ++ src.take 4096 ++ src.drop 4096 = buf ++ src := by
          rw [List.append_assoc, List.take_append_drop]
        simp only [hco, hco2, hbp]
    · rw [if_neg hlen]

/-- C6 counterexample: the line "abc\r\n" has content "abc" of 3 bytes, equal
    to maxBytes = 3 (so not exceeding it), yet ReadLine fails with LineTooLong
    because the limit check counts the CRLF terminator too. -/
theorem c6_linetoolong_counterexample :
    ReadLine (strBytes "abc\r\n") 3 = (none, true, some Err.lineTooLong) ∧
    (strBytes "abc").length ≤ 3 := by decide

/-- C6 amended: for every positive maxBytes, a line terminated by `\n` fails
    with LineTooLong exactly when the accumulated bytes including the
    terminator exceed maxBytes (and then no partial line is returned, the line
    result is nil); an unterminated accumulated prefix exceeding maxBytes also
    fails with LineTooLong with no partial line. -/
theorem c6_linetoolong_cap (pre post src : List Nat) (max : Nat)
    (h1 : 10 ∉ pre) (h2 : 10 ∉ src) (hmax : 0 < max) :
    ReadLine (pre ++ 10 :: post) max =
      (if max < pre.length + 1 then (none, true, some Err.lineTooLong)
       else (some (stripNL (pre ++ [10])), false, none)) ∧
    (max < src.length → ReadLine src max = (none, true, some Err.lineTooLong)) := by
  constructor
  · rw [ReadLine, if_neg (by omega)]
    rw [readLineLoop_terminated ((pre ++ 10 :: post).length + 1) pre post []
      max h1 (by simp; omega)]
    simp
  · intro hover
    rw [ReadLine, if_neg (by omega)]
    rw [readLineLoop_unterminated (src.length + 1) src [] max h2 (by omega)]
    simp only [List.length_nil, Nat.zero_add]
    rw [if_pos (by omega)]

theorem c6_linetoolong_cap_witness :
    ReadLine ([97, 98] ++ 10 :: []) 3 =
      (if 3 < List.length [97, 98] + 1 then (none, true, some Err.lineTooLong)
       else (some (stripNL ([97, 98] ++ [10])), false, none)) ∧
    (3 < List.length [120, 121, 122, 119] →
      ReadLine [120, 121, 122, 119] 3 = (none, true, some Err.lineTooLong)) :=
  c6_linetoolong_cap [97, 98] [] [120, 121, 122, 119] 3 (by decide) (by decide)
    (by decide)

/-- C7: ReadLine strips exactly one trailing `\n` and, when present, exactly
    one `\r` immediately before it (any other `\r`, including one not followed
    by `\n`, stays in the line content); an input beginning with `\r\n` or
    `\n` yields a zero-length line with no error. -/
theorem c7_readline_strip (pre post post2 post3 : List Nat) (max m2 m3 : Nat)
    (h : 10 ∉ pre) (hfit : pre.length + 1 ≤ max) (hm2 : 2 ≤ m2) (hm3 : 1 ≤ m3) :
    ReadLine (pre ++ 10 :: post) max =
      (some (if pre.getLast? = some 13 then pre.dropLast else pre), false, none) ∧
    ReadLine (13 :: 10 :: post2) m2 = (some [], false, none) ∧
    ReadLine (10 :: post3) m3 = (some [], false, none) := by
  have main : ∀ (pre' post' : List Nat) (mx : Nat), 10 ∉ pre' →
      pre'.length + 1 ≤ mx →
      ReadLine (pre' ++ 10 :: post') mx =
        (some (if pre'.getLast? = some 13 then pre'.dropLast else pre'),
          false, none) := by
    intro pre' post' mx h' hfit'
    rw [ReadLine, if_neg (by omega)]
    rw [readLineLoop_terminated ((pre' ++ 10 :: post').length + 1) pre' post' []
      mx h' (by simp; omega)]
    rw [if_neg (by simp only [List.length_nil]; omega)]
    simp [stripNL_concat]
  refine ⟨main pre post max h hfit, ?_, ?_⟩
  · have hl2 : List.length [13] + 1 ≤ m2 := by simp; omega
    have h2 := main [13] post2 m2 (by simp) hl2
    simpa using h2
  · have hl3 : List.length ([] : List Nat) + 1 ≤ m3 := by simp; omega
    have h3 := main [] post3 m3 (by simp) hl3
    simpa using h3

theorem c7_readline_strip_witness :
    ReadLine ([97, 13] ++ 10 :: [99]) 4 =
      (some (if List.getLast? [97, 13] = some 13 then List.dropLast [97, 13]
        else [97, 13]), false, none) ∧
    ReadLine (13 :: 10 :: [99]) 2 = (some [], false, none) ∧
    ReadLine (10 :: [99]) 1 = (some [], false, none) :=
  c7_readline_strip [97, 13] [99] [99] [99] 4 2 1 (by decide) (by decide)
    (by decide) (by decide)

/-- The first occurrence of byte `x` in `pre ++ x :: post` with `x ∉ pre` sits
    at index `pre.length`. -/
theorem findIdx?_first (x : Nat) (pre post : List Nat) (h : x ∉ pre) :
    (pre ++ x :: post).findIdx? (fun c => c == x) = some pre.length := by
  induction pre with
  | nil => simp [List.findIdx?_cons]
  | cons a t iht =>
      have ha : ¬(a = x) := by
        intro hq
        exact h (by simp [hq])
      have ht : x ∉ t := fun hq => h (List.mem_cons_of_mem a hq)
      simp [List.findIdx?_cons, ha, iht ht]

/-- A list not containing `x` has no index of `x`. -/
theorem findIdx?_none_of (x : Nat) (l : List Nat) (h : x ∉ l) :
    l.findIdx? (fun c => c == x) = none := by
  induction l with
  | nil => simp
  | cons a t iht =>
      have ha : ¬(a = x) := by
        intro hq
        exact h (by simp [hq])
      have ht : x ∉ t := fun hq => h (List.mem_cons_of_mem a hq)
      simp [List.findIdx?_cons, ha, iht ht]

/-- `strings.TrimSuffix(line, "\r\n")` strips a final CRLF. -/
theorem trimSuffixCRLF_concat (l : List Nat) :
    trimSuffixCRLF ((l ++ [13]) ++ [10]) = l := by
  simp only [trimSuffixCRLF, List.getLast?_concat, List.dropLast_concat]
  simp

/-- C8: after the terminal chunk the reader consumes trailer lines until an
    empty line: a well-formed `key: value\r\n` line is added to the
    caller-owned header store via `Header.Add` and the loop continues; the
    empty line ends the section returning the store; a line without a
    colon-separated key fails with UnexpectedTrailer; a trailer-state `Read`
    delivers no body bytes, stores the trailers in the reader's caller-supplied
    header field and moves to the terminal Done state, where every further
    read keeps reporting end-of-stream. -/
theorem c8_trailer_handling (fuel : Nat) (k v w rest rest2 rest3 rest4 : List Nat)
    (hdr hdr2 : HeaderM) (ch ch2 : chunkedReader) (plen p2 : Nat) (e : Err)
    (hk : k ≠ []) (hk58 : 58 ∉ k) (hk10 : 10 ∉ k) (hv10 : 10 ∉ v)
    (hw : w ≠ []) (hw58 : 58 ∉ w) (hw10 : 10 ∉ w)
    (hch1 : ch.ctxDone = false) (hch2 : ch.state = .stateTrailer)
    (hd1 : ch2.ctxDone = false) (hd2 : ch2.state = .stateDone) :
    readTrailersF (fuel + 1) ((k ++ 58 :: v ++ [13]) ++ 10 :: rest) hdr =
      readTrailersF fuel rest
        (hAdd hdr (CanonicalHeaderKey k) (asciiTrimSpace v)) ∧
    readTrailersF (fuel + 1) ([13] ++ 10 :: rest2) hdr = .ok (hdr, rest2) ∧
    readTrailersF (fuel + 1) ((w ++ [13]) ++ 10 :: rest3) hdr =
      .error .unexpectedTrailer ∧
    (readTrailers ch.src ch.header = .ok (hdr2, rest4) →
      chunkedReader.Read ch plen =
        ([], some .eof,
          { ch with src := rest4, header := hdr2, state := .stateDone })) ∧
    (readTrailers ch.src ch.header = .error e →
      chunkedReader.Read ch plen = ([], some e, ch)) ∧
    chunkedReader.Read ch2 p2 = ([], some .eof, ch2) := by
  have hkpos : 0 < k.length := List.length_pos.mpr hk
  have hwpos : 0 < w.length := List.length_pos.mpr hw
  refine ⟨?_, ?_, ?_, ?_, ?_, ?_⟩
  · set pre := k ++ 58 :: v ++ [13] with hpre
    have hpre2 : pre = (k ++ 58 :: v) ++ [13] := hpre
    have hlenpre : pre.length = k.length + v.length + 2 := by
      rw [hpre]
      simp only [List.length_append, List.length_cons, List.length_nil]
      omega
    have hnotin : 10 ∉ pre := by
      rw [hpre]
      intro hq
      rcases List.mem_append.mp hq with h1 | h2
      · rcases List.mem_append.mp h1 with h3 | h4
        · exact hk10 h3
        · rcases List.mem_cons.mp h4 with h5 | h6
          · omega
          · exact hv10 h6
      · rcases List.mem_cons.mp h2 with h7 | h8
        · omega
        · exact absurd h8 (List.not_mem_nil 10)
    rw [readTrailersF]
    rw [findIdx?_first 10 pre rest hnotin]
    simp only
    have hline : (pre ++ 10 :: rest).take (pre.length + 1) = pre ++ [10] := by
      rw [List.take_append_eq_append_take, List.take_of_length_le (by omega)]
      congr 1
      have hone : pre.length + 1 - pre.length = 1 := by omega
      rw [hone]
      simp
    have hrest : (pre ++ 10 :: rest).drop (pre.length + 1) = rest := by
      rw [List.drop_append_eq_append_drop, List.drop_eq_nil_of_le (by omega)]
      have hone : pre.length + 1 - pre.length = 1 := by omega
      rw [hone]
      simp
    rw [hline, hrest]
    have hne : ¬(pre ++ [10] = [13, 10]) := by
      intro hq
      have hlen := congrArg List.length hq
      simp only [List.length_append, List.length_cons, List.length_nil] at hlen
      omega
    rw [if_neg hne]
    have htrim : trimSuffixCRLF (pre ++ [10]) = k ++ 58 :: v := by
      rw [hpre2]
      exact trimSuffixCRLF_concat _
    rw [htrim]
    rw [findIdx?_first 58 k v hk58]
    simp only
    rw [if_neg (by omega)]
    have htk : (k ++ 58 :: v).take k.length = k := by
      rw [List.take_append_eq_append_take, List.take_of_length_le (by omega)]
      simp
    have hdp : (k ++ 58 :: v).drop (k.length + 1) = v := by
      rw [List.drop_append_eq_append_drop, List.drop_eq_nil_of_le (by omega)]
      have hone : k.length + 1 - k.length = 1 := by omega
      rw [hone]
      simp
    rw [htk, hdp]
  · rw [readTrailersF]
    rw [findIdx?_first 10 [13] rest2 (by simp)]
    simp
  · set pw := w ++ [13] with hpw
    have hnotin : 10 ∉ pw := by
      rw [hpw]
      intro hq
      simp only [List.mem_append, List.mem_cons, List.not_mem_nil,
        or_false] at hq
      rcases hq with hq1 | hq2
      · exact hw10 hq1
      · omega
    rw [readTrailersF]
    rw [findIdx?_first 10 pw rest3 hnotin]
    simp only
    have hlenpw : pw.length = w.length + 1 := by
      rw [hpw]
      simp
    have hline : (pw ++ 10 :: rest3).take (pw.length + 1) = pw ++ [10] := by
      rw [List.take_append_eq_append_take, List.take_of_length_le (by omega)]
      congr 1
      have hone : pw.length + 1 - pw.length = 1 := by omega
      rw [hone]
      simp
    rw [hline]
    have hne : ¬(pw ++ [10] = [13, 10]) := by
      intro hq
      have hlen := congrArg List.length hq
      simp only [List.length_append, List.length_cons, List.length_nil] at hlen
      omega
    rw [if_neg hne]
    have htrim : trimSuffixCRLF (pw ++ [10]) = w := by
      rw [hpw]
      exact trimSuffixCRLF_concat w
    rw [htrim, findIdx?_none_of 58 w hw58]
  · intro hok
    obtain ⟨cd, csrc, cst, crem, clim, crt, chd⟩ := ch
    simp only at hch1 hch2 hok
    subst hch1
    subst hch2
    simp only [chunkedReader.Read, Bool.false_eq_true, if_false, hok]
  · intro herr
    obtain ⟨cd, csrc, cst, crem, clim, crt, chd⟩ := ch
    simp only at hch1 hch2 herr
    subst hch1
    subst hch2
    simp only [chunkedReader.Read, Bool.false_eq_true, if_false, herr]
  · obtain ⟨cd, csrc, cst, crem, clim, crt, chd⟩ := ch2
    simp only at hd1 hd2
    subst hd1
    subst hd2
    simp [chunkedReader.Read]

theorem c8_trailer_handling_witness :
    readTrailersF 4 (([88, 45, 84] ++ 58 :: [32, 49] ++ [13]) ++ 10 :: [13, 10]) [] =
      readTrailersF 3 [13, 10]
        (hAdd [] (CanonicalHeaderKey [88, 45, 84]) (asciiTrimSpace [32, 49])) ∧
    readTrailersF 4 ([13] ++ 10 :: [5]) [] = .ok ([], [5]) ∧
    readTrailersF 4 (([110] ++ [13]) ++ 10 :: []) [] =
      .error .unexpectedTrailer ∧
    (readTrailers (⟨false, [13, 10], .stateTrailer, 0, 0, 7, []⟩ :
          chunkedReader).src
        (⟨false, [13, 10], .stateTrailer, 0, 0, 7, []⟩ : chunkedReader).header =
        .ok ([], []) →
      chunkedReader.Read ⟨false, [13, 10], .stateTrailer, 0, 0, 7, []⟩ 4 =
        ([], some .eof, ⟨false, [], .stateDone, 0, 0, 7, []⟩)) ∧
    (readTrailers (⟨false, [13, 10], .stateTrailer, 0, 0, 7, []⟩ :
          chunkedReader).src
        (⟨false, [13, 10], .stateTrailer, 0, 0, 7, []⟩ : chunkedReader).header =
        .error .unexpectedTrailer →
      chunkedReader.Read ⟨false, [13, 10], .stateTrailer, 0, 0, 7, []⟩ 4 =
        ([], some .unexpectedTrailer,
          ⟨false, [13, 10], .stateTrailer, 0, 0, 7, []⟩)) ∧
    chunkedReader.Read ⟨false, [], .stateDone, 0, 0, 0, []⟩ 4 =
      ([], some .eof, ⟨false, [], .stateDone, 0, 0, 0, []⟩) :=
  c8_trailer_handling 3 [88, 45, 84] [32, 49] [110] [13, 10] [5] [] []
    [] [] ⟨false, [13, 10], .stateTrailer, 0, 0, 7, []⟩
    ⟨false, [], .stateDone, 0, 0, 0, []⟩ 4 4 .unexpectedTrailer
    (by decide) (by decide) (by decide) (by decide) (by decide) (by decide)
    (by decide) rfl rfl rfl rfl

-- -----------------------------------------------------------------------------
-- Hex formatting / parsing round trip (chunk-size lines)
-- -----------------------------------------------------------------------------

/-- `hexDigit` inverts through `digitValB`. -/
theorem digitValB_hexDigit (v : Nat) (h : v < 16) :
    digitValB (hexDigit v) = v := by
  by_cases hv : v < 10
  · simp only [hexDigit, digitValB, if_pos hv]
    rw [if_neg (by omega), if_neg (by omega)]
    omega
  · simp only [hexDigit, digitValB, if_neg hv]
    rw [if_pos (by omega)]
    omega

/-- `hexDigit` produces a valid base-16 digit byte. -/
theorem isDigitB_hexDigit (v : Nat) (h : v < 16) :
    isDigitB 16 (hexDigit v) = true := by
  simp only [isDigitB, hexDigit]
  rw [if_neg (by omega : ¬(16 ≤ 10))]
  simp only [Bool.or_eq_true, decide_eq_true_eq]
  split <;> omega

/-- Every byte of `hexRevF` is a lowercase hex digit byte. -/
theorem hexRevF_mem (fuel : Nat) : ∀ (n c : Nat), c ∈ hexRevF fuel n →
    (48 ≤ c ∧ c ≤ 57) ∨ (97 ≤ c ∧ c ≤ 102) := by
  induction fuel with
  | zero => intro n c hc; simp [hexRevF] at hc
  | succ fuel ih =>
    intro n c hc
    rw [hexRevF] at hc
    split at hc
    · simp at hc
    · rcases List.mem_cons.mp hc with h1 | h2
      · subst h1
        have hm : n % 16 < 16 := Nat.mod_lt _ (by omega)
        simp only [hexDigit]
        split <;> omega
      · exact ih (n / 16) c h2

/-- The hex digits of a positive number form a non-empty list. -/
theorem hexRevF_ne_nil (fuel n : Nat) (hn : n ≠ 0) (hf : fuel ≠ 0) :
    hexRevF fuel n ≠ [] := by
  rcases fuel with - | fuel
  · exact absurd rfl hf
  · rw [hexRevF, if_neg hn]
    simp

/-- Folding base-16 digit accumulation over the digits of `n` (most
    significant first) recovers `n`. -/
theorem hexRevF_foldl (fuel : Nat) : ∀ (n acc : Nat), n ≤ fuel →
    List.foldl (fun a c => a * 16 + digitValB c) acc (hexRevF fuel n).reverse =
      acc * 16 ^ (hexRevF fuel n).length + n := by
  induction fuel with
  | zero =>
    intro n acc hn
    have h0 : n = 0 := by omega
    subst h0
    simp [hexRevF]
  | succ fuel ih =>
    intro n acc hn
    rw [hexRevF]
    by_cases h0 : n = 0
    · subst h0
      simp
    · rw [if_neg h0]
      simp only [List.reverse_cons, List.foldl_append, List.foldl_cons,
        List.foldl_nil, List.length_cons]
      rw [ih (n / 16) acc (by omega)]
      have hm : n % 16 < 16 := Nat.mod_lt _ (by omega)
      rw [digitValB_hexDigit _ hm]
      rw [pow_succ]
      have : acc * (16 ^ (hexRevF fuel (n / 16)).length * 16) =
          acc * 16 ^ (hexRevF fuel (n / 16)).length * 16 := by ring
      rw [this]
      omega

/-- Every byte of `toHexBytes` is a hex digit byte. -/
theorem toHexBytes_mem (n c : Nat) (hc : c ∈ toHexBytes n) :
    (48 ≤ c ∧ c ≤ 57) ∨ (97 ≤ c ∧ c ≤ 102) := by
  simp only [toHexBytes] at hc
  split at hc
  · simp at hc
    omega
  · exact hexRevF_mem n n c (List.mem_reverse.mp hc)

/-- `toHexBytes` is never empty. -/
theorem toHexBytes_ne_nil (n : Nat) : toHexBytes n ≠ [] := by
  simp only [toHexBytes]
  split
  · simp
  · rename_i hn
    simp only [ne_eq, List.reverse_eq_nil_iff]
    exact hexRevF_ne_nil n n hn (by omega)

/-- `parseDigits` evaluates a list of valid digits by accumulation. -/
theorem parseDigits_valid (base : Nat) (l : List Nat)
    (h : ∀ c ∈ l, isDigitB base c = true) (hne : l ≠ []) :
    parseDigits base l =
      some (List.foldl (fun a c => a * base + digitValB c) 0 l) := by
  have core : ∀ (l2 : List Nat) (acc : Nat), (∀ c ∈ l2, isDigitB base c = true) →
      List.foldl (fun acc c =>
        match acc with
        | none => none
        | some v => if isDigitB base c then some (v * base + digitValB c)
            else none) (some acc) l2 =
      some (List.foldl (fun a c => a * base + digitValB c) acc l2) := by
    intro l2
    induction l2 with
    | nil => intro acc _; simp
    | cons a t iht =>
      intro acc hall
      simp only [List.foldl_cons]
      rw [if_pos (hall a (List.mem_cons_self a t))]
      exact iht _ (fun c hc => hall c (List.mem_cons_of_mem a hc))
  simp only [parseDigits, List.isEmpty_iff]
  rw [if_neg hne]
  exact core l 0 h

/-- `strconv.ParseInt(FormatInt(n, 16), 16, 64)` gives back `n` for every
    in-range `n`. -/
theorem parseGoInt_toHexBytes (n : Nat) (hn : n < 2 ^ 63) :
    parseGoInt 16 (toHexBytes n) = some (n : Int) := by
  have hvalid : ∀ c ∈ toHexBytes n, isDigitB 16 c = true := by
    intro c hc
    rcases toHexBytes_mem n c hc with h1 | h2 <;>
      · simp only [isDigitB]
        rw [if_neg (by omega)]
        simp
        omega
  have hparse : parseDigits 16 (toHexBytes n) = some n := by
    rw [parseDigits_valid 16 _ hvalid (toHexBytes_ne_nil n)]
    congr 1
    simp only [toHexBytes, hexRev]
    split
    · rename_i h0
      subst h0
      simp [digitValB]
    · rw [hexRevF_foldl n n 0 (le_refl n)]
      simp
  have hhead : ∀ x, (toHexBytes n).head? = some x → 48 ≤ x := by
    intro x hx
    have hmem : x ∈ toHexBytes n :=
      List.mem_of_mem_head? (Option.mem_def.mpr hx)
    rcases toHexBytes_mem n x hmem with h1 | h2 <;> omega
  have h43 : ¬((toHexBytes n).head? = some 43) := by
    intro hq
    have := hhead 43 hq
    omega
  have h45 : ¬((toHexBytes n).head? = some 45) := by
    intro hq
    have := hhead 45 hq
    omega
  simp only [parseGoInt, h43, h45, if_false, hparse]
  rw [if_neg (by simp), if_pos (by omega)]

/-- `strings.TrimSpace` strips nothing but the CRLF from a line whose content
    has no whitespace bytes. -/
theorem asciiTrimSpace_content_crlf (l : List Nat) (hne : l ≠ [])
    (hall : ∀ c ∈ l, isWS c = false) :
    asciiTrimSpace ((l ++ [13]) ++ [10]) = l := by
  have hshape : (l ++ [13]) ++ [10] = l ++ [13, 10] := by simp
  rw [hshape]
  rcases l with - | ⟨a, t⟩
  · exact absurd rfl hne
  · simp only [asciiTrimSpace, List.cons_append, List.dropWhile_cons]
    rw [hall a (List.mem_cons_self a t)]
    simp only [Bool.false_eq_true, if_false]
    rw [show (a :: (t ++ [13, 10])).reverse = 10 :: 13 :: (a :: t).reverse by
      simp]
    simp only [List.dropWhile_cons]
    rw [show isWS 10 = true from rfl, show isWS 13 = true from rfl]
    simp only [if_true]
    have hrev : (a :: t).reverse.dropWhile isWS = (a :: t).reverse := by
      rcases hr : (a :: t).reverse with - | ⟨b, r⟩
      · simp
      · have hb : b ∈ a :: t := by
          rw [← List.mem_reverse, hr]
          exact List.mem_cons_self b r
        simp only [List.dropWhile_cons, hall b hb, Bool.false_eq_true, if_false]
    rw [hrev, List.reverse_reverse]

/-- `bufio.ReadString('\n')` on a line that ends at the first newline. -/
theorem readStringNL_line (pre post : List Nat) (h : 10 ∉ pre) :
    readStringNL (pre ++ 10 :: post) = (pre ++ [10], none, post) := by
  simp only [readStringNL]
  rw [findIdx?_first 10 pre post h]
  simp only
  have hline : (pre ++ 10 :: post).take (pre.length + 1) = pre ++ [10] := by
    rw [List.take_append_eq_append_take, List.take_of_length_le (by omega)]
    congr 1
    have hone : pre.length + 1 - pre.length = 1 := by omega
    rw [hone]
    simp
  have hrest : (pre ++ 10 :: post).drop (pre.length + 1) = post := by
    rw [List.drop_append_eq_append_drop, List.drop_eq_nil_of_le (by omega)]
    have hone : pre.length + 1 - pre.length = 1 := by omega
    rw [hone]
    simp
  rw [hline, hrest]

/-- `nextChunkSize` on a well-formed hex size line recovers the size. -/
theorem nextChunkSize_hex (L : Nat) (rest : List Nat) (hL : L < 2 ^ 63) :
    nextChunkSize ((toHexBytes L ++ [13]) ++ 10 :: rest) = .ok (L, rest) := by
  have hnotin : 10 ∉ toHexBytes L ++ [13] := by
    intro hq
    rcases List.mem_append.mp hq with h1 | h2
    · rcases toHexBytes_mem L 10 h1 with h3 | h4 <;> omega
    · rcases List.mem_cons.mp h2 with h5 | h6
      · omega
      · exact absurd h6 (List.not_mem_nil 10)
  simp only [nextChunkSize]
  rw [readStringNL_line _ rest hnotin]
  simp only
  have hnows : ∀ c ∈ toHexBytes L, isWS c = false := by
    intro c hc
    rcases toHexBytes_mem L c hc with h1 | h2 <;>
      · simp only [isWS]
        simp
        omega
  have htrim : asciiTrimSpace ((toHexBytes L ++ [13]) ++ [10]) = toHexBytes L :=
    asciiTrimSpace_content_crlf _ (toHexBytes_ne_nil L) hnows
  rw [htrim]
  rw [if_neg (by simp [toHexBytes_ne_nil L])]
  have hsemi : (toHexBytes L).findIdx? (fun c => c == 59) = none := by
    apply findIdx?_none_of
    intro hq
    rcases toHexBytes_mem L 59 hq with h1 | h2 <;> omega
  rw [hsemi]
  simp only
  rw [parseGoInt_toHexBytes L hL]
  simp only
  rw [if_neg (by omega)]
  simp

/-- The trailer loop accepts the empty `\r\n` line immediately. -/
theorem readTrailersF_empty_line (fuel : Nat) (rest : List Nat) (hdr : HeaderM) :
    readTrailersF (fuel + 1) ([13] ++ 10 :: rest) hdr = .ok (hdr, rest) := by
  rw [readTrailersF]
  rw [findIdx?_first 10 [13] rest (by simp)]
  simp

/-- One `chunkedReader.Read` in the data state with `remain` bytes of payload
    at the head of the source: delivers `min b remain` bytes and moves to the
    CRLF state once the payload is exhausted. -/
theorem chunkedRead_data_step (data rest : List Nat) (rt b : Nat)
    (hdr : HeaderM) (hb : 0 < b) (hne : data ≠ []) :
    chunkedReader.Read
        ⟨false, data ++ rest, .stateChunkData, data.length, 0, rt, hdr⟩ b =
      if b < data.length then
        (data.take b, none,
          ⟨false, data.drop b ++ rest, .stateChunkData, data.length - b, 0,
            rt + b, hdr⟩)
      else
        (data, none,
          ⟨false, rest, .stateChunkCRLF, 0, 0, rt + data.length, hdr⟩) := by
  have hlp : 0 < data.length := List.length_pos.mpr hne
  have hsrcne : ¬(data ++ rest).isEmpty = true := by
    simp only [List.isEmpty_iff, List.append_eq_nil]
    intro hq
    exact absurd hq.1 hne
  simp only [chunkedReader.Read, srcRead, hsrcne, Bool.false_eq_true, if_false]
  rw [if_neg (by omega : ¬data.length = 0)]
  by_cases hbl : b < data.length
  · have hmin : min b data.length = b := by omega
    rw [hmin]
    have htk : (data ++ rest).take b = data.take b := by
      rw [List.take_append_eq_append_take]
      have hz : b - data.length = 0 := by omega
      rw [hz]
      simp
    have hdp : (data ++ rest).drop b = data.drop b ++ rest :=
      List.drop_append_of_le_length (by omega)
    rw [htk, hdp]
    have hlen1 : (data.take b).length = b := by
      simp only [List.length_take]
      omega
    rw [hlen1]
    rw [if_neg (by simp : ¬((0 : Nat) < 0 ∧ 0 < rt + b))]
    rw [if_neg (by omega : ¬(data.length - b = 0))]
    rw [if_pos hbl]
  · have hmin : min b data.length = data.length := by omega
    rw [hmin]
    rw [List.take_left, List.drop_left]
    rw [if_neg (by simp : ¬((0 : Nat) < 0 ∧ 0 < rt + data.length))]
    rw [Nat.sub_self]
    rw [if_pos (rfl : (0 : Nat) = 0)]
    rw [if_neg hbl]

/-- Draining the data state over a payload of `remain` bytes at the head of
    the source delivers exactly that payload, then continues in the CRLF
    state with the payload counted into `readTotal`. -/
theorem drainChunked_data (bound : Nat) : ∀ (data rest : List Nat)
    (rt fuel b : Nat) (hdr : HeaderM), 0 < b → data ≠ [] →
    data.length ≤ bound →
    drainChunked (dataSteps b data.length + fuel)
        ⟨false, data ++ rest, .stateChunkData, data.length, 0, rt, hdr⟩ b =
      (data ++ (drainChunked fuel
          ⟨false, rest, .stateChunkCRLF, 0, 0, rt + data.length, hdr⟩ b).1,
        (drainChunked fuel
          ⟨false, rest, .stateChunkCRLF, 0, 0, rt + data.length, hdr⟩ b).2.1,
        (drainChunked fuel
          ⟨false, rest, .stateChunkCRLF, 0, 0, rt + data.length, hdr⟩ b).2.2) := by
  induction bound with
  | zero =>
    intro data rest rt fuel b hdr hb hne hbd
    have := List.length_pos.mpr hne
    omega
  | succ bound ih =>
    intro data rest rt fuel b hdr hb hne hbd
    have hlp : 0 < data.length := List.length_pos.mpr hne
    rw [dataSteps, dif_neg (by omega : ¬(data.length = 0 ∨ b = 0))]
    have hstep : 1 + dataSteps b (data.length - min b data.length) + fuel =
        (dataSteps b (data.length - min b data.length) + fuel) + 1 := by omega
    rw [hstep, drainChunked]
    rw [chunkedRead_data_step data rest rt b hdr hb hne]
    by_cases hbl : b < data.length
    · rw [if_pos hbl]
      simp only
      have hmin : min b data.length = b := by omega
      rw [hmin]
      have hdl : (data.drop b).length = data.length - b := by
        simp [List.length_drop]
      have hrec := ih (data.drop b) rest (rt + b)
        fuel b hdr hb (by simp [List.drop_eq_nil_iff]; omega)
        (by simp only [List.length_drop]; omega)
      rw [hdl] at hrec
      rw [hrec]
      have hrt : rt + b + (data.length - b) = rt + data.length := by omega
      rw [hrt]
      rw [← List.append_assoc, List.take_append_drop]
    · rw [if_neg hbl]
      simp only
      have hmin : min b data.length = data.length := by omega
      rw [hmin, Nat.sub_self, dataSteps, dif_pos (Or.inl rfl), Nat.zero_add]

/-- The CRLF state consumes exactly the `\r\n` after a chunk payload and
    returns to the header state, producing no bytes. -/
theorem drainChunked_crlf (b fuel rt : Nat) (rest : List Nat) (hdr : HeaderM) :
    drainChunked (1 + fuel)
        ⟨false, 13 :: 10 :: rest, .stateChunkCRLF, 0, 0, rt, hdr⟩ b =
      drainChunked fuel ⟨false, rest, .stateChunkHeader, 0, 0, rt, hdr⟩ b := by
  have hline : readStringNL (13 :: 10 :: rest) = ([13, 10], none, rest) :=
    readStringNL_line [13] rest (by simp)
  rw [Nat.add_comm 1 fuel, drainChunked]
  simp only [chunkedReader.Read, Bool.false_eq_true, if_false, hline]
  simp

/-- The terminal `0\r\n` chunk followed by the empty trailer line: the reader
    enters Done and reports end-of-stream with no bytes and no trailers
    added. -/
theorem drainChunked_term (b fuel rt : Nat) (hdr : HeaderM) :
    drainChunked (2 + fuel)
        ⟨false, [48, 13, 10, 13, 10], .stateChunkHeader, 0, 0, rt, hdr⟩ b =
      ([], some .eof, ⟨false, [], .stateDone, 0, 0, rt, hdr⟩) := by
  have hsize : nextChunkSize [48, 13, 10, 13, 10] = .ok (0, [13, 10]) :=
    nextChunkSize_hex 0 [13, 10] (by norm_num)
  have htrail : readTrailers [13, 10] hdr = .ok (hdr, []) :=
    readTrailersF_empty_line 2 [] hdr
  rw [show 2 + fuel = (1 + fuel) + 1 by omega, drainChunked]
  simp only [chunkedReader.Read, Bool.false_eq_true, if_false, hsize, if_true]
  rw [Nat.add_comm 1 fuel, drainChunked]
  simp only [chunkedReader.Read, Bool.false_eq_true, if_false]
  rw [htrail]
  simp

/-- Decoding one encoded chunk from the header state: the chunk's payload is
    delivered and the reader returns to the header state beyond it. -/
theorem drainChunked_chunk (buf rest : List Nat) (rt fuel b : Nat)
    (hdr : HeaderM) (hb : 0 < b) (hne : buf ≠ []) (hlen : buf.length < 2 ^ 63) :
    drainChunked (chunkSteps b buf + fuel)
        ⟨false, writeChunk buf ++ rest, .stateChunkHeader, 0, 0, rt, hdr⟩ b =
      (buf ++ (drainChunked fuel
          ⟨false, rest, .stateChunkHeader, 0, 0, rt + buf.length, hdr⟩ b).1,
        (drainChunked fuel
          ⟨false, rest, .stateChunkHeader, 0, 0, rt + buf.length, hdr⟩ b).2.1,
        (drainChunked fuel
          ⟨false, rest, .stateChunkHeader, 0, 0, rt + buf.length, hdr⟩ b).2.2) := by
  have hlp : 0 < buf.length := List.length_pos.mpr hne
  have hshape : writeChunk buf ++ rest =
      (toHexBytes buf.length ++ [13]) ++ 10 :: (buf ++ 13 :: 10 :: rest) := by
    rw [writeChunk, if_neg (by simp [List.isEmpty_iff]; exact hne)]
    simp
  have hsize : nextChunkSize (writeChunk buf ++ rest) =
      .ok (buf.length, buf ++ 13 :: 10 :: rest) := by
    rw [hshape]
    exact nextChunkSize_hex buf.length (buf ++ 13 :: 10 :: rest) hlen
  have hsteps : chunkSteps b buf + fuel =
      (dataSteps b buf.length + (1 + fuel)) + 1 := by
    rw [chunkSteps, if_neg (by simp [List.isEmpty_iff]; exact hne)]
    omega
  rw [hsteps, drainChunked]
  simp only [chunkedReader.Read, Bool.false_eq_true, if_false, hsize]
  rw [if_neg (by omega : ¬buf.length = 0)]
  simp only [List.nil_append]
  rw [drainChunked_data buf.length buf (13 :: 10 :: rest) rt (1 + fuel) b hdr
    hb hne (le_refl _)]
  rw [drainChunked_crlf b fuel (rt + buf.length) rest hdr]

/-- Decoding the concatenation of the encodings of a list of buffers delivers
    the flattened buffers and returns to the header state beyond them. -/
theorem drainChunked_chunks : ∀ (bufs : List (List Nat)) (rest : List Nat)
    (rt fuel b : Nat) (hdr : HeaderM), 0 < b →
    (∀ buf ∈ bufs, buf.length < 2 ^ 63) →
    drainChunked (sumSteps b bufs + fuel)
        ⟨false, (bufs.map writeChunk).flatten ++ rest, .stateChunkHeader, 0, 0,
          rt, hdr⟩ b =
      (bufs.flatten ++ (drainChunked fuel
          ⟨false, rest, .stateChunkHeader, 0, 0, rt + bufs.flatten.length,
            hdr⟩ b).1,
        (drainChunked fuel
          ⟨false, rest, .stateChunkHeader, 0, 0, rt + bufs.flatten.length,
            hdr⟩ b).2.1,
        (drainChunked fuel
          ⟨false, rest, .stateChunkHeader, 0, 0, rt + bufs.flatten.length,
            hdr⟩ b).2.2) := by
  intro bufs
  induction bufs with
  | nil =>
    intro rest rt fuel b hdr hb hlen
    simp [sumSteps]
  | cons buf bufs ih =>
    intro rest rt fuel b hdr hb hlen
    have hsum : sumSteps b (buf :: bufs) = chunkSteps b buf + sumSteps b bufs := by
      simp [sumSteps]
    by_cases hbe : buf = []
    · subst hbe
      have hzero : chunkSteps b [] = 0 := by simp [chunkSteps]
      rw [hsum, hzero, Nat.zero_add]
      have hwc : writeChunk [] = [] := by simp [writeChunk]
      simp only [List.map_cons, List.flatten_cons, hwc, List.nil_append]
      exact ih rest rt fuel b hdr hb (fun c hc => hlen c (List.mem_cons_of_mem _ hc))
    · rw [hsum]
      simp only [List.map_cons, List.flatten_cons, List.append_assoc,
        List.length_append, Nat.add_assoc]
      rw [drainChunked_chunk buf ((bufs.map writeChunk).flatten ++ rest) rt
        (sumSteps b bufs + fuel) b hdr hb hbe
        (hlen buf (List.mem_cons_self _ _))]
      rw [ih rest (rt + buf.length) fuel b hdr hb
        (fun c hc => hlen c (List.mem_cons_of_mem _ hc))]
      simp only [List.append_assoc, Nat.add_assoc]

/-- C3: encoding any finite byte sequence, under any partition into write
    calls (including empty buffers, which emit nothing), with the chunked
    writer followed by its Close, then decoding the produced wire bytes with
    the chunked reader (any positive read buffer size), yields exactly the
    original byte sequence with a clean end-of-stream and zero trailers; in
    particular writing "Wiki" then "pedia" produces the wire bytes
    "4\r\nWiki\r\n5\r\npedia\r\n0\r\n\r\n" and decoding those bytes yields
    "Wikipedia" with zero trailers. -/
theorem c3_chunked_roundtrip (bufs : List (List Nat)) (b : Nat) (hb : 0 < b)
    (hlen : ∀ buf ∈ bufs, buf.length < 2 ^ 63) :
    drainChunked (sumSteps b bufs + 2)
        (newChunkedReader false (chunkedWriterBytes bufs) 0 []) b =
      (bufs.flatten, some .eof,
        ⟨false, [], .stateDone, 0, 0, bufs.flatten.length, []⟩) ∧
    chunkedWriterBytes [strBytes "Wiki", strBytes "pedia"] =
      strBytes "4\r\nWiki\r\n5\r\npedia\r\n0\r\n\r\n" ∧
    drainChunked 8
        (newChunkedReader false
          (strBytes "4\r\nWiki\r\n5\r\npedia\r\n0\r\n\r\n") 0 []) 4096 =
      (strBytes "Wikipedia", some .eof,
        ⟨false, [], .stateDone, 0, 0, 9, []⟩) := by
  refine ⟨?_, by decide, by decide⟩
  show drainChunked (sumSteps b bufs + 2)
      ⟨false, (bufs.map writeChunk).flatten ++ [48, 13, 10, 13, 10],
        .stateChunkHeader, 0, 0, 0, []⟩ b = _
  rw [drainChunked_chunks bufs [48, 13, 10, 13, 10] 0 2 b [] hb hlen]
  have hterm := drainChunked_term b 0 (0 + bufs.flatten.length) []
  simp only [Nat.add_zero] at hterm
  rw [hterm]
  simp

theorem c3_chunked_roundtrip_witness :
    drainChunked (sumSteps 1 [[87], [], [105]] + 2)
        (newChunkedReader false (chunkedWriterBytes [[87], [], [105]]) 0 []) 1 =
      ([[87], [], [105]].flatten, some .eof,
        ⟨false, [], .stateDone, 0, 0, [[87], [], [105]].flatten.length, []⟩) ∧
    chunkedWriterBytes [strBytes "Wiki", strBytes "pedia"] =
      strBytes "4\r\nWiki\r\n5\r\npedia\r\n0\r\n\r\n" ∧
    drainChunked 8
        (newChunkedReader false
          (strBytes "4\r\nWiki\r\n5\r\npedia\r\n0\r\n\r\n") 0 []) 4096 =
      (strBytes "Wikipedia", some .eof,
        ⟨false, [], .stateDone, 0, 0, 9, []⟩) :=
  c3_chunked_roundtrip [[87], [], [105]] 1 (by decide) (by decide)

/-- C2 counterexample: with both `Content-Length: 9` and
    `Transfer-Encoding: chunked` present, `WriteResponse` writes the body as 9
    raw bytes (fixed-length framing); the output does not end with the chunked
    framing of the body, so chunked does not take precedence on the write
    side. -/
theorem c2_precedence_counterexample :
    WriteResponse false
        ⟨strBytes "HTTP/1.1", 200, strBytes "OK",
          [(strBytes "Content-Length", [strBytes "9"]),
            (strBytes "Transfer-Encoding", [strBytes "chunked"])],
          some (strBytes "Wikipedia")⟩ =
      .ok (strBytes
        "HTTP/1.1 200 OK\r\nContent-Length: 9\r\nTransfer-Encoding: chunked\r\n\r\nWikipedia") ∧
    List.isSuffixOf (chunkedWriterBytes [strBytes "Wikipedia"])
      (strBytes
        "HTTP/1.1 200 OK\r\nContent-Length: 9\r\nTransfer-Encoding: chunked\r\n\r\nWikipedia") =
      false := by decide

/-- C2 amended: `WriteResponse` inspects the same two headers as the decoder
    but with the opposite precedence: Content-Length is checked first, so a
    present, valid Content-Length `v` makes the body be written as exactly
    `v` raw bytes even when Transfer-Encoding: chunked is also present;
    chunked framing is used only when Content-Length is absent. -/
theorem c2_writeresponse_precedence (resp resp2 : Response)
    (body body2 : List Nat) (v : Int)
    (h1 : resp.Body = some body) (h2 : resp2.Body = some body2)
    (hcl : (hGet resp.Header (strBytes "Content-Length")).isEmpty = false)
    (hparse : parseGoInt 10
      (asciiTrimSpace (hGet resp.Header (strBytes "Content-Length"))) = some v)
    (hv : 0 ≤ v) (hfit : v.toNat ≤ body.length)
    (hcl2 : (hGet resp2.Header (strBytes "Content-Length")).isEmpty = true)
    (hte2 : equalFoldAscii (hGet resp2.Header (strBytes "Transfer-Encoding"))
      (strBytes "chunked") = true) :
    WriteResponse false resp =
      .ok ((if resp.Proto.isEmpty then strBytes "HTTP/1.1" else resp.Proto) ++
        [32] ++ decBytes resp.StatusCode ++ [32] ++
        (if resp.Status.isEmpty then decBytes resp.StatusCode
          else resp.Status) ++ [13, 10] ++ headerLines resp.Header ++
        [13, 10] ++ body.take v.toNat) ∧
    WriteResponse false resp2 =
      .ok ((if resp2.Proto.isEmpty then strBytes "HTTP/1.1" else resp2.Proto) ++
        [32] ++ decBytes resp2.StatusCode ++ [32] ++
        (if resp2.Status.isEmpty then decBytes resp2.StatusCode
          else resp2.Status) ++ [13, 10] ++ headerLines resp2.Header ++
        [13, 10] ++ chunkedWriterBytes (chunksOf 32768 body2)) := by
  constructor
  · simp only [WriteResponse, Bool.false_eq_true, if_false, h1, hcl,
      not_false_iff, if_true, hparse]
    rw [if_neg (by omega : ¬(v < 0)),
      if_neg (by omega : ¬(body.length < v.toNat))]
  · simp only [WriteResponse, Bool.false_eq_true, if_false, h2, hcl2,
      Bool.not_true, not_true, hte2, if_true, if_false]

theorem c2_writeresponse_precedence_witness :
    WriteResponse false
        ⟨strBytes "HTTP/1.1", 200, strBytes "OK",
          [(strBytes "Content-Length", [strBytes "9"]),
            (strBytes "Transfer-Encoding", [strBytes "chunked"])],
          some (strBytes "Wikipedia")⟩ =
      .ok ((if (strBytes "HTTP/1.1").isEmpty then strBytes "HTTP/1.1"
          else strBytes "HTTP/1.1") ++ [32] ++ decBytes 200 ++ [32] ++
        (if (strBytes "OK").isEmpty then decBytes 200 else strBytes "OK") ++
        [13, 10] ++
        headerLines [(strBytes "Content-Length", [strBytes "9"]),
          (strBytes "Transfer-Encoding", [strBytes "chunked"])] ++
        [13, 10] ++ (strBytes "Wikipedia").take (9 : Int).toNat) ∧
    WriteResponse false
        ⟨strBytes "HTTP/1.1", 200, strBytes "OK",
          [(strBytes "Transfer-Encoding", [strBytes "chunked"])],
          some [104, 105]⟩ =
      .ok ((if (strBytes "HTTP/1.1").isEmpty then strBytes "HTTP/1.1"
          else strBytes "HTTP/1.1") ++ [32] ++ decBytes 200 ++ [32] ++
        (if (strBytes "OK").isEmpty then decBytes 200 else strBytes "OK") ++
        [13, 10] ++
        headerLines [(strBytes "Transfer-Encoding", [strBytes "chunked"])] ++
        [13, 10] ++ chunkedWriterBytes (chunksOf 32768 [104, 105])) :=
  c2_writeresponse_precedence
    ⟨strBytes "HTTP/1.1", 200, strBytes "OK",
      [(strBytes "Content-Length", [strBytes "9"]),
        (strBytes "Transfer-Encoding", [strBytes "chunked"])],
      some (strBytes "Wikipedia")⟩
    ⟨strBytes "HTTP/1.1", 200, strBytes "OK",
      [(strBytes "Transfer-Encoding", [strBytes "chunked"])],
      some [104, 105]⟩
    (strBytes "Wikipedia") [104, 105] 9 rfl rfl (by decide) (by decide)
    (by decide) (by decide) (by decide) (by decide)
